import Mathlib

/-!
Verification of the numerical estimation engine in `rcrbounds.py` (the RCR
bounds estimator).  Python floating-point values are modelled by the type
`RVal`: a real number, one of the two infinities, or NaN.  Real arithmetic
stands in for float arithmetic; the special values follow the IEEE/numpy
rules used by the source (NaN propagation, NaN-comparisons false, and so on).
Fallible Python code (assertions, unbound-local reads, index errors) is
modelled with `Except String`.
-/

set_option maxHeartbeats 1000000

noncomputable section

namespace RCR

/-- A Python/numpy float: a finite real, an infinity, or NaN. -/
inductive RVal where
  | fin : ℝ → RVal
  | pinf : RVal
  | ninf : RVal
  | nan : RVal

namespace RVal

/-- Negation, `-x`. -/
def rneg : RVal → RVal
  | fin x => fin (-x)
  | pinf => ninf
  | ninf => pinf
  | nan => nan

/-- Addition, IEEE style: NaN propagates and `inf + (-inf) = NaN`. -/
def radd : RVal → RVal → RVal
  | nan, _ => nan
  | _, nan => nan
  | fin a, fin b => fin (a + b)
  | fin _, pinf => pinf
  | fin _, ninf => ninf
  | pinf, fin _ => pinf
  | ninf, fin _ => ninf
  | pinf, pinf => pinf
  | ninf, ninf => ninf
  | pinf, ninf => nan
  | ninf, pinf => nan

/-- Subtraction `a - b = a + (-b)` (exactly the IEEE identity). -/
def rsub (a b : RVal) : RVal := radd a (rneg b)

/-- Multiplication, IEEE style: NaN propagates and `0 * inf = NaN`. -/
def rmul : RVal → RVal → RVal
  | nan, _ => nan
  | _, nan => nan
  | fin a, fin b => fin (a * b)
  | fin a, pinf => if 0 < a then pinf else if a < 0 then ninf else nan
  | fin a, ninf => if 0 < a then ninf else if a < 0 then pinf else nan
  | pinf, fin b => if 0 < b then pinf else if b < 0 then ninf else nan
  | ninf, fin b => if 0 < b then ninf else if b < 0 then pinf else nan
  | pinf, pinf => pinf
  | pinf, ninf => ninf
  | ninf, pinf => ninf
  | ninf, ninf => pinf

/-- Division, numpy style: `x/0` is a signed infinity (`0/0 = NaN`),
`x/inf = 0`, `inf/inf = NaN`, NaN propagates.  (Signed zero is not
modelled; division by zero takes the sign of the numerator.) -/
def rdiv : RVal → RVal → RVal
  | nan, _ => nan
  | _, nan => nan
  | fin a, fin b =>
      if b = 0 then (if a = 0 then nan else if 0 < a then pinf else ninf)
      else fin (a / b)
  | fin _, pinf => fin 0
  | fin _, ninf => fin 0
  | pinf, fin b => if 0 ≤ b then pinf else ninf
  | ninf, fin b => if 0 ≤ b then ninf else pinf
  | pinf, pinf => nan
  | pinf, ninf => nan
  | ninf, pinf => nan
  | ninf, ninf => nan

instance : Neg RVal := ⟨rneg⟩
instance : Add RVal := ⟨radd⟩
instance : Sub RVal := ⟨rsub⟩
instance : Mul RVal := ⟨rmul⟩
instance : Div RVal := ⟨rdiv⟩

/-- `abs`. -/
def rabs : RVal → RVal
  | fin x => fin |x|
  | pinf => pinf
  | ninf => pinf
  | nan => nan

/-- `np.sqrt`: NaN on negative inputs. -/
def rsqrt : RVal → RVal
  | fin x => if x < 0 then nan else fin (Real.sqrt x)
  | pinf => pinf
  | ninf => nan
  | nan => nan

/-- `np.sign`: `-1`, `0` or `1` on reals, NaN on NaN. -/
def rsign : RVal → RVal
  | fin x => fin (Real.sign x)
  | pinf => fin 1
  | ninf => fin (-1)
  | nan => nan

/-- `np.isfinite`. -/
def isFinite : RVal → Bool
  | fin _ => true
  | _ => false

/-- `np.isnan`. -/
def isNan : RVal → Bool
  | nan => true
  | _ => false

/-- Strict `<`, IEEE: any comparison with NaN is false. -/
def rltB : RVal → RVal → Bool
  | fin a, fin b => decide (a < b)
  | fin _, pinf => true
  | fin _, ninf => false
  | fin _, nan => false
  | ninf, fin _ => true
  | ninf, pinf => true
  | ninf, ninf => false
  | ninf, nan => false
  | pinf, _ => false
  | nan, _ => false

/-- Non-strict `<=`, IEEE: any comparison with NaN is false. -/
def rleB : RVal → RVal → Bool
  | fin a, fin b => decide (a ≤ b)
  | fin _, pinf => true
  | fin _, ninf => false
  | fin _, nan => false
  | ninf, nan => false
  | ninf, _ => true
  | pinf, pinf => true
  | pinf, _ => false
  | nan, _ => false

/-- `==`, IEEE: `NaN == x` is false, `inf == inf` is true. -/
def rEqB : RVal → RVal → Bool
  | fin a, fin b => decide (a = b)
  | pinf, pinf => true
  | ninf, ninf => true
  | _, _ => false

/-- `!=` (numpy), the negation of `==`; in particular `NaN != x` is true. -/
def rneB (a b : RVal) : Bool := !(rEqB a b)

/-- Strict `>`. -/
def rgtB (a b : RVal) : Bool := rltB b a

/-- Non-strict `>=`. -/
def rgeB (a b : RVal) : Bool := rleB b a

end RVal

open RVal

/-- Python built-in `max(a, b)`: keeps `a` unless `b` compares greater
(so NaN handling depends on argument order, as in CPython). -/
def pymax2 (a b : RVal) : RVal := if rgtB b a then b else a

/-- Python built-in `min(a, b)`: keeps `a` unless `b` compares smaller. -/
def pymin2 (a b : RVal) : RVal := if rltB b a then b else a

/-- `np.maximum`: propagates NaN from either argument. -/
def npmax2 (a b : RVal) : RVal :=
  if a.isNan || b.isNan then nan else if rltB a b then b else a

/-- Python list indexing `l[i]`: negative indices count from the end,
out-of-range indices raise `IndexError`. -/
def pyGet (l : List ℝ) (i : ℤ) : Except String ℝ :=
  let n : ℤ := l.length
  let j : ℤ := if i < 0 then i + n else i
  if 0 ≤ j ∧ j < n then .ok (l.getD j.toNat 0) else .error "IndexError"

/-- Python indexing into an `RVal` list with wrap-around for negative
indices (used where the source indexes with a possibly negative offset
that is always in range). -/
def pyGetR (l : List RVal) (i : ℤ) : RVal :=
  if i < 0 then l.getD (i + l.length).toNat nan else l.getD i.toNat nan

/-- Python slicing `l[a:b]` with negative-index wrap-around and clamping. -/
def pySlice (l : List RVal) (a b : ℤ) : List RVal :=
  let n : ℤ := l.length
  let a' : ℤ := max 0 (min n (if a < 0 then a + n else a))
  let b' : ℤ := max 0 (min n (if b < 0 then b + n else b))
  ((l.drop a'.toNat).take (b' - a').toNat)

/-- Python `min` over a nonempty float sequence: fold keeping the earlier
element unless a later one compares strictly smaller.  (Python raises on an
empty sequence; all call sites guard for nonemptiness, so `[]` maps to NaN.) -/
def pyListMin : List RVal → RVal
  | [] => nan
  | x :: xs => xs.foldl (fun m v => if rltB v m then v else m) x

/-- Python `max` over a nonempty float sequence. -/
def pyListMax : List RVal → RVal
  | [] => nan
  | x :: xs => xs.foldl (fun m v => if rgtB v m then v else m) x

/-- The body of `np.argmin` over non-NaN values: index of the first
strictly-minimal element. -/
def argminAux : List RVal → ℕ → ℕ × RVal → ℕ
  | [], _, best => best.1
  | v :: rest, i, best =>
      if rltB v best.2 then argminAux rest (i + 1) (i, v)
      else argminAux rest (i + 1) best

/-- `np.argmin`: if any element is NaN, the index of the first NaN
(numpy treats NaN as the minimum); otherwise the first index of the
smallest element.  (`np.argmin` raises on `[]`; call sites guard, so the
empty list maps to `0`.) -/
def argminNp (l : List RVal) : ℕ :=
  match l.findIdx? isNan with
  | some i => i
  | none =>
      match l with
      | [] => 0
      | v :: rest => argminAux rest 1 (0, v)

/-- The body of `np.argmax` over non-NaN values. -/
def argmaxAux : List RVal → ℕ → ℕ × RVal → ℕ
  | [], _, best => best.1
  | v :: rest, i, best =>
      if rgtB v best.2 then argmaxAux rest (i + 1) (i, v)
      else argmaxAux rest (i + 1) best

/-- `np.argmax`: NaN is treated as the maximum, ties keep the first index. -/
def argmaxNp (l : List RVal) : ℕ :=
  match l.findIdx? isNan with
  | some i => i
  | none =>
      match l with
      | [] => 0
      | v :: rest => argmaxAux rest 1 (0, v)

/-- `np.nanargmin`: index of the smallest element ignoring NaNs (first
occurrence).  Call sites guard against the all-NaN case; it maps to `0`. -/
def nanargminIdx (l : List RVal) : ℕ :=
  (l.foldl
    (fun st v =>
      match st with
      | (i, none) => (i + 1, if v.isNan then none else some (i, v))
      | (i, some q) =>
          (i + 1, if v.isNan then some q
                  else if rltB v q.2 then some (i, v) else some q))
    ((0 : ℕ), (none : Option (ℕ × RVal)))).2.elim 0 Prod.fst

/-- Ordering key for `np.sort`: ascending with NaNs last. -/
def sortLeB (a b : RVal) : Bool :=
  if b.isNan then true else if a.isNan then false else rleB a b

/-- One step of insertion sort with key `sortLeB`. -/
def insertRv (v : RVal) : List RVal → List RVal
  | [] => [v]
  | x :: xs => if sortLeB v x then v :: x :: xs else x :: insertRv v xs

/-- `np.sort`: ascending order, NaNs last. -/
def sortRv (l : List RVal) : List RVal := l.foldr insertRv []

/-- Boolean-mask selection `arr[mask]` (numpy). -/
def maskSel (l : List RVal) (mask : List Bool) : List RVal :=
  ((l.zip mask).filter (fun p => p.2)).map Prod.fst

/-- `inrange[0:j] = True`: force the first `j` entries of a mask to true. -/
def forceFirst (j : ℕ) (mask : List Bool) : List Bool :=
  mask.mapIdx (fun p b => if p < j then true else b)

/-- `geop(first, factor, nobs)`: geometric series of length `nobs`. -/
def geop (first factor : ℝ) : ℕ → List ℝ
  | 0 => []
  | n + 1 => first :: (geop (first * factor) factor n)

/-- `sys.float_info.max`, the largest double, `(2^53 - 1) * 2^971`. -/
def floatMax : ℝ := (2 ^ 53 - 1) * 2 ^ 971

/-- `np.finfo(float).eps`, the double-precision machine epsilon `2^-52`. -/
def machEps : ℝ := 1 / 2 ^ 52

/-! ## MomentReducer: `simplify_moments` and friends -/

/-- The floor square root, written as a bounded count
(`#{r ∈ [1, n] : r² ≤ n}` equals `⌊√n⌋`) so that it reduces by kernel
computation. -/
def natSqrt (n : ℕ) : ℕ :=
  (List.range (n + 1)).countP (fun r => decide (0 < r) && decide (r * r ≤ n))

/-- The number of variables `k` implied by a moment vector of length `m`:
the integer part of `(sqrt(1 + 8m) + 1)/2` (exact for all lengths the
assertion below accepts). -/
def kOf (m : ℕ) : ℕ := (natSqrt (1 + 8 * m) + 1) / 2

/-- Position of entry `(i, j)` (with `i ≤ j`) of a `k × k` symmetric matrix
in the row-major upper-triangle enumeration used by the fill loop of
`simplify_moments`. -/
def triIdx (k i j : ℕ) : ℕ := i * k + (j - i) - i * (i - 1) / 2

/-- The full cross-product matrix `E(WW')` reconstructed from
`[1.0] + moment_vector` (the array `xtmp` in the source). -/
def xtmpOf (mv : List ℝ) (k : ℕ) (i j : ℕ) : ℝ :=
  ((1 : ℝ) :: mv).getD (triIdx k (min i j) (max i j)) 0

/-- The control-control block `XX = xtmp[0:k-2, 0:k-2]`. -/
def XXof (mv : List ℝ) (k : ℕ) : Matrix (Fin (k - 2)) (Fin (k - 2)) ℝ :=
  Matrix.of (fun i j => xtmpOf mv k i.1 j.1)

/-- The control-outcome vector `XY = xtmp[k-2, 0:k-2]`. -/
def XYof (mv : List ℝ) (k : ℕ) : Fin (k - 2) → ℝ :=
  fun i => xtmpOf mv k (k - 2) i.1

/-- The control-treatment vector `XZ = xtmp[k-1, 0:k-2]`. -/
def XZof (mv : List ℝ) (k : ℕ) : Fin (k - 2) → ℝ :=
  fun i => xtmpOf mv k (k - 1) i.1

/-- The pre-forcing value of simplified moment 5,
`XY.T @ inv(XX) @ XZ - moment_vector[k-2]*moment_vector[k-3]`. -/
def rawCovYZhat (mv : List ℝ) (k : ℕ) : ℝ :=
  Matrix.dotProduct (XYof mv k) ((XXof mv k)⁻¹.mulVec (XZof mv k)) -
    (mv.getD (k - 2) 0) * (mv.getD (k - 3) 0)

/-- The `try` block of `simplify_moments`: `none` when `XX` is singular
(numpy raises `LinAlgError`), otherwise the three quadratic forms
`XY'(XX)⁻¹XY`, `XZ'(XX)⁻¹XZ`, `XY'(XX)⁻¹XZ`. -/
def smHat (mv : List ℝ) (k : ℕ) : Option (ℝ × ℝ × ℝ) :=
  if (XXof mv k).det = 0 then none
  else
    some (Matrix.dotProduct (XYof mv k) ((XXof mv k)⁻¹.mulVec (XYof mv k)),
      Matrix.dotProduct (XZof mv k) ((XXof mv k)⁻¹.mulVec (XZof mv k)),
      Matrix.dotProduct (XYof mv k) ((XXof mv k)⁻¹.mulVec (XZof mv k)))

/-- `simplify_moments`: convert `moment_vector` into the six moments
`[var(Y), var(Z), cov(Y,Z), var(Yhat), var(Zhat), cov(Yhat,Zhat)]`.
The two `assert` statements are modelled as `Except.error`; a singular
`XX` (zero determinant, numpy's `LinAlgError`) leaves moments 3-5 NaN;
with exactly one control variable (`k = 4`) moment 5 is forced to
`sign(raw) * sqrt(sm3 * sm4)`. -/
def simplify_moments (mv : List ℝ) : Except String (Fin 6 → RVal) := do
  let m := mv.length
  let k := kOf m
  if 2 * (m + 1) = k ^ 2 + k then
    if k * (k + 1) / 2 = m + 1 then do
      let vY2 ← pyGet mv ((m : ℤ) - 3)
      let vEY ← pyGet mv ((k : ℤ) - 3)
      let vZ2 ← pyGet mv ((m : ℤ) - 1)
      let vEZ ← pyGet mv ((k : ℤ) - 2)
      let vYZ ← pyGet mv ((m : ℤ) - 2)
      let s0 := vY2 - vEY ^ 2
      let s1 := vZ2 - vEZ ^ 2
      let s2 := vYZ - vEZ * vEY
      if smHat mv k = none then
        .ok (if k = 4 then
               ![fin s0, fin s1, fin s2, nan, nan, rsign nan * rsqrt (nan * nan)]
             else ![fin s0, fin s1, fin s2, nan, nan, nan])
      else
        let hat := (smHat mv k).getD (0, 0, 0)
        let s3 := hat.1 - vEY ^ 2
        let s4 := hat.2.1 - vEZ ^ 2
        let s5 := hat.2.2 - vEZ * vEY
        .ok (if k = 4 then
               ![fin s0, fin s1, fin s2, fin s3, fin s4,
                 rsign (fin s5) * rsqrt (fin s3 * fin s4)]
             else ![fin s0, fin s1, fin s2, fin s3, fin s4, fin s5])
    else .error "AssertionError: h == m + 1"
  else .error "AssertionError: 2*(m+1) == k**2 + k"

/-- `check_moments`: validity and identification flags for a moment vector. -/
def check_moments (mv : List ℝ) : Except String (Bool × Bool) := do
  let sm ← simplify_moments mv
  let valid := true
  let valid := if (List.ofFn (fun i => (sm i).isFinite)).all id then valid
               else false
  let valid := if rltB (sm 0) (fin 0) then false else valid
  let valid := if rltB (sm 1) (fin 0) then false else valid
  let valid := if rltB (sm 3) (fin 0) then false else valid
  let valid := if rltB (sm 4) (fin 0) then false else valid
  let valid := if rgtB (rabs (sm 2)) (rsqrt ((sm 0) * (sm 1))) then false
               else valid
  let valid := if rgtB (rabs (sm 5)) (rsqrt ((sm 3) * (sm 4))) then false
               else valid
  let identified := valid
  let identified := if rEqB (sm 0) (fin 0) then false else identified
  let identified := if rEqB (sm 1) (fin 0) then false else identified
  let identified := if rEqB (sm 3) (fin 0) then false else identified
  let identified := if rEqB (sm 3) (sm 0) then false else identified
  pure (valid, identified)

/-- `lambdastar`: `sqrt(max(var(Z)/var(Zhat), 1) - 1)`, `+inf` when
`var(Zhat) == 0`. -/
def lambdastar (mv : List ℝ) : Except String RVal := do
  let sm ← simplify_moments mv
  pure (if rEqB (sm 4) (fin 0) then pinf
        else rsqrt (npmax2 ((sm 1) / (sm 4)) (fin 1) - fin 1))

/-- `thetastar`: `cov(Yhat,Zhat)/var(Zhat)`, NaN when `var(Zhat) == 0`. -/
def thetastar (mv : List ℝ) : Except String RVal := do
  let sm ← simplify_moments mv
  pure (if rEqB (sm 4) (fin 0) then nan else (sm 5) / (sm 4))

/-- `lambdafast`: one element of the vectorised evaluation of
`lambda(theta)` from the six simplified moments.  The result is the
masked value: NaN unless both denominators are nonzero (in the numpy
`!=` sense) and the first numerator/denominator pair have equal
`np.sign`s.  (`theta ** 2` is written `theta * theta`.) -/
def lambdafast (theta : RVal) (sm : Fin 6 → RVal) : RVal :=
  let y := sm 0
  let z := sm 1
  let yz := sm 2
  let yhat := sm 3
  let zhat := sm 4
  let yzhat := sm 5
  let lf0_num := yhat - (fin 2 * theta) * yzhat + (theta * theta) * zhat
  let lf0_denom := y - yhat - (fin 2 * theta) * (yz - yzhat) +
    (theta * theta) * (z - zhat)
  let lf1_num := yz - yzhat - theta * (z - zhat)
  let lf1_denom := yzhat - theta * zhat
  if rneB lf0_denom (fin 0) && rneB lf1_denom (fin 0) &&
      rEqB (rsign lf0_num) (rsign lf0_denom) then
    (lf1_num / lf1_denom) * rsqrt (lf0_num / lf0_denom)
  else nan

/-- `negative_lambdafast`. -/
def negative_lambdafast (theta : RVal) (sm : Fin 6 → RVal) : RVal :=
  -(lambdafast theta sm)

/-- `lambdafun`: `lambdafast` after reducing the moment vector. -/
def lambdafun (mv : List ℝ) (theta : RVal) : Except String RVal := do
  let sm ← simplify_moments mv
  pure (lambdafast theta sm)

/-- `lambda0_fun`: the closed form of `lambda(0)`. -/
def lambda0_fun (mv : List ℝ) : Except String RVal := do
  let sm ← simplify_moments mv
  let var_y := sm 0
  let cov_yz := sm 2
  let var_yhat := sm 3
  let cov_yzhat := sm 5
  pure (if rneB var_y var_yhat && rneB cov_yzhat (fin 0) &&
           rEqB (rsign var_yhat) (rsign (var_y - var_yhat)) then
          ((cov_yz - cov_yzhat) / cov_yzhat) *
            rsqrt (var_yhat / (var_y - var_yhat))
        else nan)

/-- `lambda_minus_lambda`: `lambda(theta) - target`, where the 7-vector
packs the target in front of the six simplified moments. -/
def lambda_minus_lambda (theta : RVal) (v : Fin 7 → RVal) : RVal :=
  lambdafast theta (fun i => v i.succ) - v 0

/-! ## GradientEstimator: `estimate_parameter` and the dfridr machinery -/

/-- Point update of the extrapolation table `a`. -/
def fset (f : ℕ → ℕ → RVal) (i j : ℕ) (v : RVal) : ℕ → ℕ → RVal :=
  fun x y => if x = i ∧ y = j then v else f x y

/-- `fac = geop(con2, con2, ntab - 1)` with `con = 1.4`. -/
def facList : List ℝ := geop 1.96 1.96 9

/-- `moment_vector + deps` where `deps` is zero except `deps[i-1] = e`. -/
def perturb (mv : List ℝ) (i : ℕ) (e : ℝ) : List ℝ :=
  mv.set (i - 1) (mv.getD (i - 1) 0 + e)

/-- The Neville recurrence filling column `j-1` of the table:
`a[m-1, j-1] = (a[m-2, j-1]*fac[m-2] - a[m-2, j-2])/(fac[m-2] - 1)`
for `m = 2..j`. -/
def nevilleCol (a0 : ℕ → ℕ → RVal) (j : ℕ) : ℕ → ℕ → RVal :=
  (List.range' 2 (j - 1)).foldl
    (fun a m2 =>
      fset a (m2 - 1) (j - 1)
        ((a (m2 - 2) (j - 1) * fin (facList.getD (m2 - 2) 0) -
            a (m2 - 2) (j - 2)) / fin (facList.getD (m2 - 2) 0 - 1)))
    a0

/-- `errt[0:j-1]`: element-wise
`max(|a[1:j,j-1] - a[0:j-1,j-1]|, |a[1:j,j-1] - a[0:j-1,j-2]|)`. -/
def errtList (a : ℕ → ℕ → RVal) (j : ℕ) : List RVal :=
  (List.range (j - 1)).map (fun idx =>
    npmax2 (rabs (a (idx + 1) (j - 1) - a idx (j - 1)))
      (rabs (a (idx + 1) (j - 1) - a idx (j - 2))))

/-- State of one dfridr step-size refinement loop. -/
structure RidTab where
  stop : Bool
  hh : ℝ
  err : RVal
  dfr : RVal
  a : ℕ → ℕ → RVal

/-- One component of the `estimate_parameter` gradient: the adaptive
central-difference table for `d func / d moment_vector[i-1]` starting from
step size `h` (the inner `j = 2..ntab` loop with its early break). -/
def ep_component (func : List ℝ → Except String RVal) (mv : List ℝ)
    (i : ℕ) (h : ℝ) (a0 : ℕ → ℕ → RVal) :
    Except String (RVal × RVal × (ℕ → ℕ → RVal)) := do
  let hh := h
  let f1 ← func (perturb mv i hh)
  let f2 ← func (perturb mv i (-hh))
  let a := fset a0 0 0 ((f1 - f2) / fin (2 * hh))
  -- dfridr = a[0, 0] (the WORKAROUND line); err = big = 1.0e300
  let st0 : RidTab := ⟨false, hh, fin 1.0e300, a 0 0, a⟩
  let st ← (List.range' 2 9).foldlM
    (fun (st : RidTab) j => do
      if st.stop then pure st else do
      let hh := st.hh / 1.4
      let g1 ← func (perturb mv i hh)
      let g2 ← func (perturb mv i (-hh))
      let a := fset st.a 0 (j - 1) ((g1 - g2) / fin (2 * hh))
      let a := nevilleCol a j
      let errt := errtList a j
      let ier := if errt.any isFinite then nanargminIdx errt else 0
      let (err, dfr) :=
        if rleB (errt.getD ier nan) st.err then
          (errt.getD ier nan, a (1 + ier) (j - 1))
        else (st.err, st.dfr)
      let stop := rgeB (rabs (a (j - 1) (j - 1) - a (j - 2) (j - 2)))
        (fin 2.0 * err)
      pure ⟨stop, hh, err, dfr, a⟩)
    st0
  pure (st.dfr, st.err, st.a)

/-- `estimate_parameter`: the estimate `func(moment_vector)` followed by
its numerical gradient.  If the estimate is not finite the gradient loop
is skipped entirely and the gradient entries stay at their initial zeros. -/
def estimate_parameter (func : List ℝ → Except String RVal) (mv : List ℝ) :
    Except String (List RVal) := do
  let p0 ← func mv
  if p0.isFinite then do
    let m := mv.length
    let st ← (List.range' 1 10).foldlM
      (fun (st : Bool × List RVal × (ℕ → ℕ → RVal)) n => do
        let (stop, pe, a) := st
        if stop then pure st else do
        let h := (0.1 : ℝ) ^ n
        let inner ← (List.range' 1 m).foldlM
          (fun (st2 : List RVal × (ℕ → ℕ → RVal) × RVal) i => do
            let (pe, a, errmax) := st2
            let (dfr, err, a) ← ep_component func mv i h a
            pure (pe.set (i - 1) dfr, a, pymax2 errmax err))
          (pe, a, (fin 0 : RVal))
        let (pe, a, errmax) := inner
        pure (rltB errmax (fin 0.01), pe, a))
      (false, List.replicate mv.length (fin 0), fun _ _ => fin 0)
    pure (p0 :: st.2.1)
  else
    pure (p0 :: List.replicate mv.length (fin 0))

/-! ## Brent maximizer and zbrent root finder -/

/-- State of the Brent maximizer. -/
structure BrentSt where
  a : RVal
  b : RVal
  d : RVal
  e : RVal
  v : RVal
  w : RVal
  x : RVal
  fv : RVal
  fw : RVal
  fx : RVal

/-- `cgold`. -/
def cgold : ℝ := 0.3819660

/-- `zeps = 1.0e-3 * np.finfo(float).eps`. -/
def zeps : ℝ := 1.0e-3 * machEps

/-- The iteration of `brent` (convergence check, then one golden-section /
parabolic step), with the iteration counter as fuel; fuel exhaustion
returns the current `x` (the "exceeded maximum iterations" path). -/
def brentLoop (func : RVal → (Fin 6 → RVal) → RVal) (xopt : Fin 6 → RVal)
    (tol : ℝ) : ℕ → BrentSt → RVal
  | 0, st => st.x
  | fuel + 1, st =>
    let xm := fin 0.5 * (st.a + st.b)
    let tol1 := fin tol * rabs st.x + fin zeps
    let tol2 := fin 2.0 * tol1
    if rleB (rabs (st.x - xm)) (tol2 - fin 0.5 * (st.b - st.a)) then st.x
    else
      let de :=
        if rgtB (rabs st.e) tol1 then
          let r := (st.x - st.w) * (st.fx - st.fv)
          let q := (st.x - st.v) * (st.fx - st.fw)
          let p := (st.x - st.v) * q - (st.x - st.w) * r
          let q := fin 2.0 * (q - r)
          let p := if rgtB q (fin 0) then -p else p
          let q := rabs q
          let etemp := st.e
          let e := st.d
          if rgeB (rabs p) (rabs (fin 0.5 * q * etemp)) ||
              rleB p (q * (st.a - st.x)) || rgeB p (q * (st.b - st.x)) then
            let e := if rgeB st.x xm then st.a - st.x else st.b - st.x
            (fin cgold * e, e)
          else
            let d := p / q
            let u := st.x + d
            if rltB (u - st.a) tol2 || rltB (st.b - u) tol2 then
              (tol1 * rsign (xm - st.x), e)
            else (d, e)
        else
          let e := if rgeB st.x xm then st.a - st.x else st.b - st.x
          (fin cgold * e, e)
      let d := de.1
      let e := de.2
      let u := if rgeB (rabs d) tol1 then st.x + d else st.x + tol1 * rsign d
      let fu := func u xopt
      let st' :=
        if rleB fu st.fx then
          let ab := if rgeB u st.x then (st.x, st.b) else (st.a, st.x)
          BrentSt.mk ab.1 ab.2 d e st.w st.x u st.fw st.fx fu
        else
          let ab := if rltB u st.x then (u, st.b) else (st.a, u)
          if rleB fu st.fw || rEqB st.w st.x then
            BrentSt.mk ab.1 ab.2 d e st.w u st.x st.fw fu st.fx
          else if rleB fu st.fv || rEqB st.v st.x || rEqB st.v st.w then
            BrentSt.mk ab.1 ab.2 d e u st.w st.x fu st.fw st.fx
          else
            BrentSt.mk ab.1 ab.2 d e st.v st.w st.x st.fv st.fw st.fx
      brentLoop func xopt tol fuel st'

/-- `brent(ax, bx, cx, func, tol, xopt)`: derivative-free 1-D minimizer
(at most 1000 iterations). -/
def brent (ax bx cx : RVal) (func : RVal → (Fin 6 → RVal) → RVal)
    (tol : ℝ) (xopt : Fin 6 → RVal) : RVal :=
  let a := pymin2 ax cx
  let b := pymax2 ax cx
  let fx := func bx xopt
  brentLoop func xopt tol 1000
    (BrentSt.mk a b (fin 0) (fin 0) bx bx bx fx fx fx)

/-- State of the zbrent root finder.  `d` and `e` are `Option` because in
the source they are only assigned inside conditional branches; reading
them unassigned is Python's `UnboundLocalError`. -/
structure ZbSt where
  a : RVal
  b : RVal
  c : RVal
  d : Option RVal
  e : Option RVal
  fa : RVal
  fb : RVal
  fc : RVal

/-- The iteration of `zbrent`, fuel-counted; fuel exhaustion returns the
current `b` (the "exceeded maximum iterations" path). -/
def zbrentLoop (func : RVal → (Fin 7 → RVal) → RVal) (xopt : Fin 7 → RVal)
    (tol : ℝ) : ℕ → ZbSt → Except String RVal
  | 0, st => .ok st.b
  | fuel + 1, st0 => do
    let st :=
      if (rgtB st0.fb (fin 0) && rgtB st0.fc (fin 0)) ||
          (rltB st0.fb (fin 0) && rltB st0.fc (fin 0)) then
        ZbSt.mk st0.a st0.b st0.a (some (st0.b - st0.a)) (some (st0.b - st0.a))
          st0.fa st0.fb st0.fa
      else st0
    let st :=
      if rltB (rabs st.fc) (rabs st.fb) then
        ZbSt.mk st.b st.c st.b st.d st.e st.fb st.fc st.fb
      else st
    let tol1 := fin 2.0 * fin machEps * rabs st.b + fin (0.5 * tol)
    let xm := fin 0.5 * (st.c - st.b)
    if rleB (rabs xm) tol1 || rEqB st.fb (fin 0) then .ok st.b
    else do
      let eV ← match st.e with
        | none =>
            .error "UnboundLocalError: local variable e referenced before assignment"
        | some v => pure v
      let de ←
        if rgeB (rabs eV) tol1 && rgtB (rabs st.fa) (rabs st.fb) then do
          let s := st.fb / st.fa
          let pq :=
            if rEqB st.a st.c then (fin 2.0 * xm * s, fin 1 - s)
            else
              let q := st.fa / st.fc
              let r := st.fb / st.fc
              (s * (fin 2.0 * xm * q * (q - r) - (st.b - st.a) * (r - fin 1)),
                (q - fin 1) * (r - fin 1) * (s - fin 1))
          let q := if rgtB pq.1 (fin 0) then -pq.2 else pq.2
          let p := rabs pq.1
          if rltB (fin 2.0 * p)
              (pymin2 (fin 3.0 * xm * q - rabs (tol1 * q)) (rabs (eV * q))) then do
            let dV ← match st.d with
              | none =>
                  .error "UnboundLocalError: local variable d referenced before assignment"
              | some v => pure v
            pure (p / q, dV)
          else pure (xm, xm)
        else pure (xm, xm)
      let d := de.1
      let b' := if rgtB (rabs d) tol1 then st.b + d else st.b + tol1 * rsign xm
      let fb' := func b' xopt
      zbrentLoop func xopt tol fuel
        (ZbSt.mk st.b b' st.c (some d) (some de.2) st.fb fb' st.fc)

/-- `zbrent(func, x1, x2, tol, xopt)`: Brent root finder (the
"root is not bracketed" condition only logs a message). -/
def zbrent (func : RVal → (Fin 7 → RVal) → RVal) (x1 x2 : RVal) (tol : ℝ)
    (xopt : Fin 7 → RVal) : Except String RVal :=
  let fa := func x1 xopt
  let fb := func x2 xopt
  zbrentLoop func xopt tol 1000 (ZbSt.mk x1 x2 x2 none none fa fb fb)

/-! ## SegmentFinder: `bracket_theta_star` and `estimate_theta_segments` -/

/-- The candidate bracket of iteration `i`:
`theta_star + (-1, 1) * max(|theta_star|, 1) * 0.1^i`. -/
def bts_candidate (ts : RVal) (i : ℕ) : RVal × RVal :=
  (ts + fin (-1) * pymax2 (rabs ts) (fin 1) * fin ((0.1 : ℝ) ^ i),
    ts + fin 1 * pymax2 (rabs ts) (fin 1) * fin ((0.1 : ℝ) ^ i))

/-- `true_limit`: the signed one-sided limits of `lambda` at `theta_star`,
represented by `(+-1) * sign(...) * sys.float_info.max`. -/
def bts_true_limit (sm : Fin 6 → RVal) : RVal × RVal :=
  (fin 1 * rsign (sm 2 - (sm 5) * (sm 1) / (sm 4)) * fin floatMax,
    fin (-1) * rsign (sm 2 - (sm 5) * (sm 1) / (sm 4)) * fin floatMax)

/-- Whether iteration `i` of `bracket_theta_star` accepts its candidate:
the candidate strictly brackets `theta_star`, `lambda` is finite at both
ends, and both values have the sign of the matching one-sided limit. -/
def bts_qual (ts : RVal) (sm : Fin 6 → RVal) (i : ℕ) : Bool :=
  let c := bts_candidate ts i
  let tl := bts_true_limit sm
  rltB c.1 ts && rltB ts c.2 &&
    (let t1 := lambdafast c.1 sm
     let t2 := lambdafast c.2 sm
     t1.isFinite && t2.isFinite &&
       rgtB (t1 * rsign tl.1) (fin 0) && rgtB (t2 * rsign tl.2) (fin 0))

/-- `bracket_theta_star`: try `i = 1..100`, remembering the candidate of
every accepting iteration (each success overwrites the previous one);
`None` when the degenerate-ratio condition holds or no iteration accepts. -/
def bracket_theta_star (mv : List ℝ) : Except String (Option (RVal × RVal)) := do
  let ts ← thetastar mv
  let sm ← simplify_moments mv
  if rEqB (sm 2) ((sm 5) * (sm 1) / (sm 4)) then pure none
  else
    let res := (List.range' 1 100).foldl
      (fun (st : ℕ × Option (RVal × RVal)) i =>
        if bts_qual ts sm i then (i, some (bts_candidate ts i)) else st)
      (0, none)
    pure res.2

/-- `imax = 30000`. -/
def imaxC : ℕ := 30000

/-- `np.linspace(-50.0, 50.0, imax - 2)`. -/
def linspaceList : List RVal :=
  (List.range (imaxC - 2)).map
    (fun i => fin (-50 + 100 * (i : ℝ) / ((imaxC : ℝ) - 3)))

/-- The `localmin` flags: interior points where `lambda` is strictly below
both neighbours (grid endpoints are never flagged). -/
def localminList (lv : List RVal) : List Bool :=
  (List.range imaxC).map (fun j =>
    if j = 0 ∨ j = imaxC - 1 then false
    else rltB (lv.getD j nan) (lv.getD (j - 1) nan) &&
      rltB (lv.getD j nan) (lv.getD (j + 1) nan))

/-- The `localmax` flags. -/
def localmaxList (lv : List RVal) : List Bool :=
  (List.range imaxC).map (fun j =>
    if j = 0 ∨ j = imaxC - 1 then false
    else rgtB (lv.getD j nan) (lv.getD (j - 1) nan) &&
      rgtB (lv.getD j nan) (lv.getD (j + 1) nan))

/-- `localmin[i-1:i+1] = False`. -/
def clear2 (mask : List Bool) (i : ℕ) : List Bool :=
  (mask.set (i - 1) false).set i false

/-- The refinement pass: every flagged approximate optimum is replaced by
the Brent-refined optimum over its bracketing neighbours. -/
def segRefine (sm : Fin 6 → RVal) (lmin lmax : List Bool)
    (tv0 : List RVal) : List RVal :=
  (List.range' 1 (imaxC - 1)).foldl
    (fun tv j =>
      if lmin.getD (j - 1) false then
        tv.set (j - 1) (brent (pyGetR tv ((j : ℤ) - 2)) (pyGetR tv ((j : ℤ) - 1))
          (pyGetR tv (j : ℤ)) lambdafast 1.0e-10 sm)
      else if lmax.getD (j - 1) false then
        tv.set (j - 1) (brent (pyGetR tv ((j : ℤ) - 2)) (pyGetR tv ((j : ℤ) - 1))
          (pyGetR tv (j : ℤ)) negative_lambdafast 1.0e-10 sm)
      else tv)
    tv0

/-- `estimate_theta_segments`: build the dense `theta` grid, refine the
bracketing of `theta_star` and the flagged local optima, and assemble the
sorted segment-boundary list.  The local variable `i` is `none` while
unassigned; the final `else` branch reads it, which for a non-finite
`theta_star` is an `UnboundLocalError`. -/
def estimate_theta_segments (mv : List ℝ) :
    Except String (List RVal × List RVal × List RVal) := do
  let sm ← simplify_moments mv
  let theta_star ← thetastar mv
  let thetamax := pymin2 (fin 1.0e100)
    (rsqrt (fin floatMax / pymax2 (pymax2 (fin 1) (sm 4)) ((sm 1) - (sm 4))))
  let tv0 := sortRv (linspaceList ++ [thetamax, -thetamax])
  let itv1 ←
    if theta_star.isFinite then do
      let i := tv0.countP (fun t => rltB t theta_star)
      if 0 < i ∧ i < imaxC then do
        let i := min (max i 2) (imaxC - 2)
        let bracket ← bracket_theta_star mv
        let tv := match bracket with
          | some br => (tv0.take (i - 1)) ++ [br.1, br.2] ++ (tv0.drop (i + 1))
          | none => tv0
        if rltB (tv.getD (i - 2) nan) (tv.getD (i - 1) nan) then
          if rltB (tv.getD i nan) (tv.getD (i + 1) nan) then
            pure ((some i : Option ℕ), tv)
          else .error "AssertionError: thetavec[i] < thetavec[i+1]"
        else .error "AssertionError: thetavec[i-2] < thetavec[i-1]"
      else
        -- warn: theta_star > thetamax; grid unchanged, i keeps this value
        pure ((some i : Option ℕ), tv0)
    else pure ((none : Option ℕ), tv0)
  let tv2 := sortRv itv1.2
  let lambdavec := tv2.map (fun t => lambdafast t sm)
  let lmin0 := localminList lambdavec
  let lmax0 := localmaxList lambdavec
  let iOpt2 := if theta_star.isFinite then
      some (tv2.countP (fun t => rltB t theta_star))
    else itv1.1
  let masks :=
    match iOpt2 with
    | some i =>
        if theta_star.isFinite ∧ 0 < i ∧ i < imaxC then
          (clear2 lmin0 i, clear2 lmax0 i)
        else (lmin0, lmax0)
    | none => (lmin0, lmax0)
  let tv3 := segRefine sm masks.1 masks.2 tv2
  match iOpt2 with
  | some i =>
      if theta_star.isFinite ∧ 0 < i ∧ i < imaxC then
        pure (sortRv (pySlice tv3 ((i : ℤ) - 1) ((i : ℤ) + 1) ++
          maskSel tv3 masks.1 ++ maskSel tv3 masks.2 ++ [-thetamax, thetamax]),
          tv3, lambdavec)
      else
        pure (sortRv (pySlice tv3 ((i : ℤ) - 1) ((i : ℤ) + 1) ++
          maskSel tv3 masks.1 ++ maskSel tv3 masks.2), tv3, lambdavec)
  | none =>
      .error "UnboundLocalError: local variable i referenced before assignment"

/-! ## IntervalEstimator: `estimate_theta` -/

/-- `inrange`: whether each `lambda` value lies in the slack-widened
target range `[lambda_range[0] - 0.001, lambda_range[1] + 0.001]`. -/
def inrangeList (lr : RVal × RVal) (lam : List RVal) : List Bool :=
  lam.map (fun v => rgeB v (lr.1 - fin 0.001) && rleB v (lr.2 + fin 0.001))

/-- The bound-selection step of `estimate_theta`: given the important
thetas `L` (roots first, then segment boundaries) and the root counter
`k`, compute `(theta_lower, theta_upper)`. -/
def boundsOf (sm : Fin 6 → RVal) (lr : RVal × RVal) (k : ℕ)
    (L : List RVal) : RVal × RVal :=
  let lam := L.map (fun t => lambdafast t sm)
  let inr0 := inrangeList lr lam
  let inr := if 1 < k then forceFirst (k - 1) inr0 else inr0
  let cnt := inr.count true
  let lower :=
    if cnt = 0 then nan
    else if inr.getD (argminNp L) false then ninf
    else pyListMin (maskSel L inr)
  let upper :=
    if cnt = 0 then nan
    else if inr.getD (argmaxNp L) false then pinf
    else pyListMax (maskSel L inr)
  (lower, upper)

/-- State of the dfridr loop inside `estimate_theta`, where `dfridr` has
no workaround initialisation and so is an `Option`. -/
structure RidTabO where
  stop : Bool
  hh : ℝ
  err : RVal
  dfr : Option RVal
  a : ℕ → ℕ → RVal

/-- The `dlambda/dtheta` table of `estimate_theta` (pure: `lambdafast`
against a perturbed `theta`). -/
def et_dtheta (sm : Fin 6 → RVal) (θ : RVal) (h : ℝ) (a0 : ℕ → ℕ → RVal)
    (dfr0 : Option RVal) : Option RVal × RVal × (ℕ → ℕ → RVal) :=
  let hh := h
  let a := fset a0 0 0
    ((lambdafast (θ + fin hh) sm - lambdafast (θ - fin hh) sm) / fin (2 * hh))
  let st0 : RidTabO := ⟨false, hh, fin floatMax, dfr0, a⟩
  let st := (List.range' 2 9).foldl
    (fun (st : RidTabO) j =>
      if st.stop then st else
      let hh := st.hh / 1.4
      let a := fset st.a 0 (j - 1)
        ((lambdafast (θ + fin hh) sm - lambdafast (θ - fin hh) sm) /
          fin (2 * hh))
      let a := nevilleCol a j
      let errt := errtList a j
      let ier := if errt.any isFinite then nanargminIdx errt else 0
      let ed :=
        if rleB (errt.getD ier nan) st.err then
          (errt.getD ier nan, some (a (1 + ier) (j - 1)))
        else (st.err, st.dfr)
      let stop := rgeB (rabs (a (j - 1) (j - 1) - a (j - 2) (j - 2)))
        (fin 2.0 * ed.1)
      ⟨stop, hh, ed.1, ed.2, a⟩)
    st0
  (st.dfr, st.err, st.a)

/-- The `dlambda/dmoments[i-1]` table of `estimate_theta` (monadic:
`lambdafun` re-reduces the perturbed moment vector). -/
def et_dmi (mv : List ℝ) (θ : RVal) (i : ℕ) (h : ℝ) (a0 : ℕ → ℕ → RVal)
    (dfr0 : RVal) : Except String (RVal × RVal × (ℕ → ℕ → RVal)) := do
  let hh := h
  let f1 ← lambdafun (perturb mv i hh) θ
  let f2 ← lambdafun (perturb mv i (-hh)) θ
  let a := fset a0 0 0 ((f1 - f2) / fin (2 * hh))
  let st0 : RidTab := ⟨false, hh, fin floatMax, dfr0, a⟩
  let st ← (List.range' 2 9).foldlM
    (fun (st : RidTab) j => do
      if st.stop then pure st else do
      let hh := st.hh / 1.4
      let g1 ← lambdafun (perturb mv i hh) θ
      let g2 ← lambdafun (perturb mv i (-hh)) θ
      let a := fset st.a 0 (j - 1) ((g1 - g2) / fin (2 * hh))
      let a := nevilleCol a j
      let errt := errtList a j
      let ier := if errt.any isFinite then nanargminIdx errt else 0
      let (err, dfr) :=
        if rleB (errt.getD ier nan) st.err then
          (errt.getD ier nan, a (1 + ier) (j - 1))
        else (st.err, st.dfr)
      let stop := rgeB (rabs (a (j - 1) (j - 1) - a (j - 2) (j - 2)))
        (fin 2.0 * err)
      pure ⟨stop, hh, err, dfr, a⟩)
    st0
  pure (st.dfr, st.err, st.a)

/-- State threaded through the per-bound gradient block of
`estimate_theta` (the table, `dmoments`, the last `dfridr`, `dtheta`). -/
structure EtG where
  stop : Bool
  a : ℕ → ℕ → RVal
  dm : List RVal
  dfr : Option RVal
  dtheta : RVal

/-- The gradient block of `estimate_theta` for one finite bound `θ`:
`n = 1..nmax` over starting step sizes, each computing `dlambda/dtheta`
and `dlambda/dmoments`, stopping once `errmax < 0.01`; the returned row
is `-dmoments/dtheta` (the implicit function theorem). -/
def et_grad (mv : List ℝ) (sm : Fin 6 → RVal) (θ : RVal)
    (st0 : (ℕ → ℕ → RVal) × List RVal × Option RVal) :
    Except String (List RVal × ((ℕ → ℕ → RVal) × List RVal × Option RVal)) := do
  let m := mv.length
  let res ← (List.range' 1 10).foldlM
    (fun (st : EtG) n => do
      if st.stop then pure st else do
      let h := (0.1 : ℝ) ^ n
      let tst := et_dtheta sm θ h st.a st.dfr
      let errmax := pymax2 (fin 0) tst.2.1
      let dtheta ← match tst.1 with
        | none =>
            .error "UnboundLocalError: local variable dfridr referenced before assignment"
        | some v => pure v
      let inner ← (List.range' 1 m).foldlM
        (fun (st2 : (ℕ → ℕ → RVal) × List RVal × RVal × RVal) i => do
          let (a, dm, dfr, errmax) := st2
          let (dfr, err, a) ← et_dmi mv θ i h a dfr
          pure (a, dm.set (i - 1) dfr, dfr, pymax2 errmax err))
        (tst.2.2, st.dm, dtheta, errmax)
      let (a, dm, dfr, errmax) := inner
      pure (EtG.mk (rltB errmax (fin 0.01)) a dm (some dfr) dtheta))
    (EtG.mk false st0.1 st0.2.1 st0.2.2 (fin 0))
  pure (res.dm.map (fun dmi => -dmi / res.dtheta), (res.a, res.dm, res.dfr))

/-- One step of the root-collection loop of `estimate_theta`: for a pair
of adjacent segment boundaries not straddling `theta_star`, try both ends
of `lambda_range` and append a `zbrent` root for each end strictly inside
the `lambda` range of the segment. -/
def et_root_step (sm : Fin 6 → RVal) (theta_star : RVal) (lr : RVal × RVal)
    (st : List RVal × ℕ) (pr : RVal × RVal) :
    Except String (List RVal × ℕ) := do
  if !theta_star.isFinite || rgeB pr.1 theta_star ||
      rleB pr.2 theta_star then
    let lam1 := lambdafast pr.1 sm
    let lam2 := lambdafast pr.2 sm
    [lr.1, lr.2].foldlM
      (fun (st2 : List RVal × ℕ) lj => do
        if rgtB lj (pymin2 lam1 lam2) && rltB lj (pymax2 lam1 lam2) then do
          let tmp ← zbrent lambda_minus_lambda pr.1 pr.2 1.0e-200
            (Matrix.vecCons lj sm)
          pure (st2.1 ++ [tmp], st2.2 + 1)
        else pure st2)
      st
  else pure st

/-- `estimate_theta`: the identified `theta` interval and its gradients.
If `lambda_star` lies inside `lambda_range` the matrix
`((-inf, 0...0), (+inf, 0...0))` is returned immediately; otherwise roots
of `lambda(theta) - bound` are collected per monotonic segment, the
bounds are selected among the important thetas, and each finite bound
gets a numerical gradient (an infinite bound gets a zero gradient). -/
def estimate_theta (mv : List ℝ) (lr : RVal × RVal) (segs : List RVal) :
    Except String ((RVal × List RVal) × (RVal × List RVal)) := do
  let m := mv.length
  let lambda_star ← lambdastar mv
  let theta_star ← thetastar mv
  if rleB lr.1 lambda_star && rleB lambda_star lr.2 then
    pure ((ninf, List.replicate m (fin 0)), (pinf, List.replicate m (fin 0)))
  else do
    let sm ← simplify_moments mv
    let rootsK ← (segs.zip segs.tail).foldlM (et_root_step sm theta_star lr)
      ([], 1)
    let L := rootsK.1 ++ segs
    let bounds := boundsOf sm lr rootsK.2 L
    let st0 : (ℕ → ℕ → RVal) × List RVal × Option RVal :=
      (fun _ _ => fin 0, List.replicate m (fin 0), none)
    let r1 ←
      if bounds.1.isFinite then et_grad mv sm bounds.1 st0
      else pure (List.replicate m (fin 0), st0)
    let r2 ←
      if bounds.2.isFinite then et_grad mv sm bounds.2 r1.2
      else pure (List.replicate m (fin 0), r1.2)
    pure ((bounds.1, r1.1), (bounds.2, r2.1))

/-- `estimate_model`: validate the moments, estimate the three closed-form
parameters with gradients, then the `theta` bounds row.  An invalid or
unidentified moment vector returns the all-NaN matrix (and, as in the
source, no `theta`/`lambda` trace). -/
def estimate_model (mv : List ℝ) (lr : RVal × RVal) :
    Except String (List (List RVal) × Option (List RVal × List RVal)) := do
  let m := mv.length
  let nanrow : List RVal := List.replicate (m + 1) nan
  let flags ← check_moments mv
  if flags.1 = false then
    pure ([nanrow, nanrow, nanrow, nanrow, nanrow], none)
  else if flags.2 = false then
    pure ([nanrow, nanrow, nanrow, nanrow, nanrow], none)
  else do
    let row0 ← estimate_parameter lambdastar mv
    let row1 ← estimate_parameter thetastar mv
    let row2 ← estimate_parameter lambda0_fun mv
    let segsTrace ← estimate_theta_segments mv
    let rows34 ← estimate_theta mv lr segsTrace.1
    pure ([row0, row1, row2, rows34.1.1 :: rows34.1.2,
      rows34.2.1 :: rows34.2.2], some (segsTrace.2.1, segsTrace.2.2))

/-! ## Concrete inputs and auxiliary relations used in the statements -/

/-- A valid, identified moment vector with one control variable:
means `0`, `E[X^2] = 1`, `E[XY] = E[XZ] = 1`, `E[Y^2] = E[Z^2] = 2`,
`E[YZ] = 0`.  Its simplified moments are `[2, 2, 0, 1, 1, 1]`. -/
def mv1 : List ℝ := [0, 0, 0, 1, 1, 1, 2, 0, 2]

/-- The simplified moments of `mv1`. -/
def sm1f : Fin 6 → RVal := ![fin 2, fin 2, fin 0, fin 1, fin 1, fin 1]

/-- Scenario 4 of the specification: `cov(Z, X) = 0` exactly, so
`var(Zhat) = 0` and `theta_star` is NaN. -/
def mv4 : List ℝ := [0, 0, 0, 1, 0.5, 0, 1, 0.5, 1]

/-- The simplified moments of `mv4`. -/
def sm4f : Fin 6 → RVal := ![fin 1, fin 1, fin 0.5, fin 0.25, fin 0, fin 0]

/-- A length-5 moment vector (`k = 3`: no control variables beyond the
intercept). -/
def mvLen5 : List ℝ := [0, 0, 1, 0, 1]

/-- A length-6 moment vector: no integer `k` satisfies `2*(6+1) = k^2 + k`. -/
def mvLen6 : List ℝ := [0, 0, 0, 0, 0, 0]

/-- A small segment list for exercising `estimate_theta` directly. -/
def segs1 : List RVal := [fin (-(1 : ℝ) / 2), fin 0, fin (1 / 2)]

/-- The extended order on non-NaN float surrogates (`-inf <= finite <= +inf`);
no NaN is related to anything. -/
def rleProp : RVal → RVal → Prop
  | nan, _ => False
  | _, nan => False
  | ninf, _ => True
  | _, pinf => True
  | fin x, fin y => x ≤ y
  | pinf, _ => False
  | fin _, ninf => False

/-! ## Computation rules for the float surrogate -/

@[simp] theorem fin_add_fin (a b : ℝ) : fin a + fin b = fin (a + b) := rfl

@[simp] theorem fin_sub_fin (a b : ℝ) : fin a - fin b = fin (a - b) := by
  show rsub _ _ = _
  simp [rsub, radd, rneg, sub_eq_add_neg]

@[simp] theorem fin_mul_fin (a b : ℝ) : fin a * fin b = fin (a * b) := rfl

@[simp] theorem neg_fin (a : ℝ) : -(fin a) = fin (-a) := rfl

@[simp] theorem neg_nan : -(nan : RVal) = nan := rfl

theorem fin_div_fin {b : ℝ} (h : b ≠ 0) (a : ℝ) :
    fin a / fin b = fin (a / b) := by
  show rdiv _ _ = _
  simp [rdiv, h]

@[simp] theorem nan_add (x : RVal) : nan + x = nan := by
  show radd _ _ = _; cases x <;> rfl

@[simp] theorem add_nan (x : RVal) : x + nan = nan := by
  show radd _ _ = _; cases x <;> rfl

@[simp] theorem nan_sub (x : RVal) : nan - x = nan := by
  show rsub _ _ = _; cases x <;> rfl

@[simp] theorem sub_nan (x : RVal) : x - nan = nan := by
  show rsub _ _ = _; cases x <;> rfl

@[simp] theorem nan_mul (x : RVal) : nan * x = nan := by
  show rmul _ _ = _; cases x <;> rfl

@[simp] theorem mul_nan (x : RVal) : x * nan = nan := by
  show rmul _ _ = _; cases x <;> rfl

@[simp] theorem nan_div (x : RVal) : nan / x = nan := by
  show rdiv _ _ = _; cases x <;> rfl

@[simp] theorem div_nan (x : RVal) : x / nan = nan := by
  show rdiv _ _ = _; cases x <;> rfl

@[simp] theorem rsqrt_nan : rsqrt nan = nan := rfl

theorem rsqrt_fin {x : ℝ} (h : 0 ≤ x) : rsqrt (fin x) = fin (Real.sqrt x) := by
  simp [rsqrt, not_lt.mpr h]

@[simp] theorem rsign_fin (x : ℝ) : rsign (fin x) = fin (Real.sign x) := rfl

@[simp] theorem rsign_nan : rsign nan = nan := rfl

@[simp] theorem rabs_fin (x : ℝ) : rabs (fin x) = fin |x| := rfl

@[simp] theorem isFinite_fin (x : ℝ) : (fin x).isFinite = true := rfl

@[simp] theorem isFinite_nan : (nan : RVal).isFinite = false := rfl

@[simp] theorem isFinite_pinf : (pinf : RVal).isFinite = false := rfl

@[simp] theorem isFinite_ninf : (ninf : RVal).isFinite = false := rfl

@[simp] theorem isNan_fin (x : ℝ) : (fin x).isNan = false := rfl

@[simp] theorem isNan_nan : (nan : RVal).isNan = true := rfl

@[simp] theorem isNan_pinf : (pinf : RVal).isNan = false := rfl

@[simp] theorem isNan_ninf : (ninf : RVal).isNan = false := rfl

@[simp] theorem rltB_fin_fin (a b : ℝ) :
    rltB (fin a) (fin b) = decide (a < b) := rfl

@[simp] theorem rleB_fin_fin (a b : ℝ) :
    rleB (fin a) (fin b) = decide (a ≤ b) := rfl

@[simp] theorem rEqB_fin_fin (a b : ℝ) :
    rEqB (fin a) (fin b) = decide (a = b) := rfl

@[simp] theorem rneB_def (a b : RVal) : rneB a b = !(rEqB a b) := rfl

@[simp] theorem rgtB_def (a b : RVal) : rgtB a b = rltB b a := rfl

@[simp] theorem rgeB_def (a b : RVal) : rgeB a b = rleB b a := rfl

@[simp] theorem rEqB_nan_left (x : RVal) : rEqB nan x = false := by
  cases x <;> rfl

@[simp] theorem rEqB_nan_right (x : RVal) : rEqB x nan = false := by
  cases x <;> rfl

@[simp] theorem rltB_nan_left (x : RVal) : rltB nan x = false := rfl

@[simp] theorem rltB_nan_right (x : RVal) : rltB x nan = false := by
  cases x <;> rfl

@[simp] theorem rleB_nan_left (x : RVal) : rleB nan x = false := rfl

@[simp] theorem rleB_nan_right (x : RVal) : rleB x nan = false := by
  cases x <;> rfl

@[simp] theorem rleB_fin_pinf (a : ℝ) : rleB (fin a) pinf = true := rfl

@[simp] theorem rleB_pinf_fin (a : ℝ) : rleB pinf (fin a) = false := rfl

@[simp] theorem rleB_ninf_fin (a : ℝ) : rleB ninf (fin a) = true := rfl

@[simp] theorem rleB_fin_ninf (a : ℝ) : rleB (fin a) ninf = false := rfl

@[simp] theorem rltB_fin_pinf (a : ℝ) : rltB (fin a) pinf = true := rfl

@[simp] theorem rltB_pinf (x : RVal) : rltB pinf x = false := rfl

@[simp] theorem rEqB_pinf_fin (a : ℝ) : rEqB pinf (fin a) = false := rfl

@[simp] theorem rEqB_fin_pinf (a : ℝ) : rEqB (fin a) pinf = false := rfl

@[simp] theorem exceptPure (a : α) : (pure a : Except String α) = .ok a := rfl

@[simp] theorem exceptBindOk (a : α) (f : α → Except String β) :
    (Except.ok a : Except String α) >>= f = f a := rfl

@[simp] theorem exceptBindErr (e : String) (f : α → Except String β) :
    (Except.error e : Except String α) >>= f = .error e := rfl

/-! ## Evaluating the moment reducer on the concrete inputs -/

theorem XXof_mv1 : XXof mv1 4 = 1 := by
  ext i j
  fin_cases i <;> fin_cases j <;>
    norm_num [XXof, xtmpOf, triIdx, mv1, Matrix.one_apply, List.getD]

theorem XYof_mv1 : XYof mv1 4 = ![0, 1] := by
  ext i
  fin_cases i <;> rfl

theorem XZof_mv1 : XZof mv1 4 = ![0, 1] := by
  ext i
  fin_cases i <;> rfl

theorem smHat_mv1 : smHat mv1 (kOf mv1.length) = some (1, 1, 1) := by
  rw [show kOf mv1.length = 4 from by decide]
  rw [smHat, XXof_mv1, XYof_mv1, XZof_mv1]
  rw [if_neg (by rw [Matrix.det_one]; norm_num)]
  rw [inv_one]
  rw [Matrix.one_mulVec]
  have hdot : Matrix.dotProduct (![0, 1] : Fin (4 - 2) → ℝ) ![0, 1] = 1 :=
    (Fin.sum_univ_two _).trans (by norm_num)
  rw [hdot]

theorem simplify_mv1 : simplify_moments mv1 = .ok sm1f := by
  simp only [simplify_moments]
  rw [if_pos (by decide : 2 * (mv1.length + 1) =
    kOf mv1.length ^ 2 + kOf mv1.length)]
  rw [if_pos (by decide : kOf mv1.length * (kOf mv1.length + 1) / 2 =
    mv1.length + 1)]
  rw [show pyGet mv1 ((mv1.length : ℤ) - 3) = .ok 2 from rfl,
    show pyGet mv1 ((kOf mv1.length : ℤ) - 3) = .ok 0 from rfl,
    show pyGet mv1 ((mv1.length : ℤ) - 1) = .ok 2 from rfl,
    show pyGet mv1 ((kOf mv1.length : ℤ) - 2) = .ok 0 from rfl,
    show pyGet mv1 ((mv1.length : ℤ) - 2) = .ok 0 from rfl]
  simp only [exceptBindOk]
  rw [smHat_mv1]
  rw [if_neg (by simp : ¬(some ((1 : ℝ), (1 : ℝ), (1 : ℝ)) = none))]
  simp only [Option.getD_some]
  rw [if_pos (by decide : kOf mv1.length = 4)]
  refine congrArg Except.ok (funext fun i => ?_)
  fin_cases i <;>
    simp [sm1f, Real.sign_one, rsqrt_fin, Real.sqrt_one]

theorem sqrt_four : Real.sqrt 4 = 2 := by
  rw [show (4 : ℝ) = 2 ^ 2 by norm_num, Real.sqrt_sq (by norm_num : (0:ℝ) ≤ 2)]

theorem XXof_mv4 : XXof mv4 4 = 1 := by
  ext i j
  fin_cases i <;> fin_cases j <;>
    norm_num [XXof, xtmpOf, triIdx, mv4, Matrix.one_apply, List.getD]

theorem XYof_mv4 : XYof mv4 4 = ![0, 0.5] := by
  ext i
  fin_cases i <;> rfl

theorem XZof_mv4 : XZof mv4 4 = ![0, 0] := by
  ext i
  fin_cases i <;> rfl

theorem smHat_mv4 : smHat mv4 (kOf mv4.length) = some (0.25, 0, 0) := by
  rw [show kOf mv4.length = 4 from by decide]
  rw [smHat, XXof_mv4, XYof_mv4, XZof_mv4]
  rw [if_neg (by rw [Matrix.det_one]; norm_num)]
  rw [inv_one, Matrix.one_mulVec, Matrix.one_mulVec]
  have h1 : Matrix.dotProduct (![0, 0.5] : Fin (4 - 2) → ℝ) ![0, 0.5] = 0.25 :=
    (Fin.sum_univ_two _).trans (by norm_num)
  have h2 : Matrix.dotProduct (![0, 0] : Fin (4 - 2) → ℝ) ![0, 0] = 0 :=
    (Fin.sum_univ_two _).trans (by norm_num)
  have h3 : Matrix.dotProduct (![0, 0.5] : Fin (4 - 2) → ℝ) ![0, 0] = 0 :=
    (Fin.sum_univ_two _).trans (by norm_num)
  rw [h1, h2, h3]

theorem simplify_mv4 : simplify_moments mv4 = .ok sm4f := by
  simp only [simplify_moments]
  rw [if_pos (by decide : 2 * (mv4.length + 1) =
    kOf mv4.length ^ 2 + kOf mv4.length)]
  rw [if_pos (by decide : kOf mv4.length * (kOf mv4.length + 1) / 2 =
    mv4.length + 1)]
  rw [show pyGet mv4 ((mv4.length : ℤ) - 3) = .ok 1 from rfl,
    show pyGet mv4 ((kOf mv4.length : ℤ) - 3) = .ok 0 from rfl,
    show pyGet mv4 ((mv4.length : ℤ) - 1) = .ok 1 from rfl,
    show pyGet mv4 ((kOf mv4.length : ℤ) - 2) = .ok 0 from rfl,
    show pyGet mv4 ((mv4.length : ℤ) - 2) = .ok 0.5 from rfl]
  simp only [exceptBindOk]
  rw [smHat_mv4]
  rw [if_neg (by simp : ¬(some ((0.25 : ℝ), (0 : ℝ), (0 : ℝ)) = none))]
  simp only [Option.getD_some]
  rw [if_pos (by decide : kOf mv4.length = 4)]
  refine congrArg Except.ok (funext fun i => ?_)
  fin_cases i <;>
    simp [sm4f, Real.sign_zero, rsqrt_fin, Real.sqrt_zero]

theorem XXof_mvLen5 : XXof mvLen5 3 = 1 := by
  ext i j
  fin_cases i <;> fin_cases j <;>
    norm_num [XXof, xtmpOf, triIdx, mvLen5, Matrix.one_apply, List.getD]

theorem smHat_mvLen5 : smHat mvLen5 (kOf mvLen5.length) = some (0, 0, 0) := by
  rw [show kOf mvLen5.length = 3 from by decide]
  rw [smHat, XXof_mvLen5]
  rw [if_neg (by rw [Matrix.det_one]; norm_num)]
  rw [inv_one]
  simp only [Matrix.one_mulVec]
  have h1 : Matrix.dotProduct (XYof mvLen5 3) (XYof mvLen5 3) = 0 :=
    (Fin.sum_univ_one _).trans (by norm_num [XYof, xtmpOf, triIdx, mvLen5])
  have h2 : Matrix.dotProduct (XZof mvLen5 3) (XZof mvLen5 3) = 0 :=
    (Fin.sum_univ_one _).trans (by norm_num [XZof, xtmpOf, triIdx, mvLen5])
  have h3 : Matrix.dotProduct (XYof mvLen5 3) (XZof mvLen5 3) = 0 :=
    (Fin.sum_univ_one _).trans
      (by norm_num [XYof, XZof, xtmpOf, triIdx, mvLen5])
  rw [h1, h2, h3]

theorem simplify_mvLen5 :
    simplify_moments mvLen5 = .ok ![fin 1, fin 1, fin 0, fin 0, fin 0, fin 0] := by
  simp only [simplify_moments]
  rw [if_pos (by decide : 2 * (mvLen5.length + 1) =
    kOf mvLen5.length ^ 2 + kOf mvLen5.length)]
  rw [if_pos (by decide : kOf mvLen5.length * (kOf mvLen5.length + 1) / 2 =
    mvLen5.length + 1)]
  rw [show pyGet mvLen5 ((mvLen5.length : ℤ) - 3) = .ok 1 from rfl,
    show pyGet mvLen5 ((kOf mvLen5.length : ℤ) - 3) = .ok 0 from rfl,
    show pyGet mvLen5 ((mvLen5.length : ℤ) - 1) = .ok 1 from rfl,
    show pyGet mvLen5 ((kOf mvLen5.length : ℤ) - 2) = .ok 0 from rfl,
    show pyGet mvLen5 ((mvLen5.length : ℤ) - 2) = .ok 0 from rfl]
  simp only [exceptBindOk]
  rw [smHat_mvLen5]
  rw [if_neg (by simp : ¬(some ((0 : ℝ), (0 : ℝ), (0 : ℝ)) = none))]
  simp only [Option.getD_some]
  rw [if_neg (by decide : ¬(kOf mvLen5.length = 4))]
  refine congrArg Except.ok (funext fun i => ?_)
  fin_cases i <;> norm_num

theorem simplify_mvLen6 :
    simplify_moments mvLen6 = .error "AssertionError: 2*(m+1) == k**2 + k" := by
  simp only [simplify_moments]
  rw [if_neg (by decide : ¬(2 * (mvLen6.length + 1) =
    kOf mvLen6.length ^ 2 + kOf mvLen6.length))]

theorem lambdastar_mv1 : lambdastar mv1 = .ok (fin 1) := by
  simp only [lambdastar, simplify_mv1, exceptBindOk, exceptPure]
  rw [show sm1f 4 = fin 1 from rfl, show sm1f 1 = fin 2 from rfl]
  rw [if_neg (by simp)]
  rw [fin_div_fin one_ne_zero]
  norm_num [npmax2, rsqrt_fin, Real.sqrt_one]

theorem thetastar_mv1 : thetastar mv1 = .ok (fin 1) := by
  simp only [thetastar, simplify_mv1, exceptBindOk, exceptPure]
  rw [show sm1f 4 = fin 1 from rfl, show sm1f 5 = fin 1 from rfl]
  rw [if_neg (by simp)]
  rw [fin_div_fin one_ne_zero]
  norm_num

theorem lambdastar_mv4 : lambdastar mv4 = .ok pinf := by
  simp only [lambdastar, simplify_mv4, exceptBindOk, exceptPure]
  rw [show sm4f 4 = fin 0 from rfl]
  rw [if_pos (by simp)]

theorem thetastar_mv4 : thetastar mv4 = .ok nan := by
  simp only [thetastar, simplify_mv4, exceptBindOk, exceptPure]
  rw [show sm4f 4 = fin 0 from rfl]
  rw [if_pos (by simp)]

theorem check_moments_mv1 : check_moments mv1 = .ok (true, true) := by
  simp only [check_moments, simplify_mv1, exceptBindOk, exceptPure]
  rw [show sm1f 0 = fin 2 from rfl, show sm1f 1 = fin 2 from rfl,
    show sm1f 2 = fin 0 from rfl, show sm1f 3 = fin 1 from rfl,
    show sm1f 4 = fin 1 from rfl, show sm1f 5 = fin 1 from rfl]
  have hf : (List.ofFn (fun i => (sm1f i).isFinite)).all id = true := by
    simp [List.ofFn_succ, sm1f]
  rw [if_pos hf]
  norm_num [rsqrt_fin, sqrt_four, Real.sqrt_one]

/-! ## Values of `lambdafast` -/

theorem lambdafast_nan (sm : Fin 6 → RVal) : lambdafast nan sm = nan := by
  simp [lambdafast]

theorem floatMax_pos : 0 < floatMax := by norm_num [floatMax]

/-- On the simplified moments of `mv1`, `lambda` is constantly `-1` on the
open interval `(-1, 1)`. -/
theorem lambdafast_sm1_mid {θ : ℝ} (h1 : -1 < θ) (h2 : θ < 1) :
    lambdafast (fin θ) sm1f = fin (-1) := by
  have ha : (1 : ℝ) + θ ≠ 0 := by linarith
  have hb : (1 : ℝ) - θ ≠ 0 := by linarith
  rw [lambdafast]
  rw [show sm1f 0 = fin 2 from rfl, show sm1f 1 = fin 2 from rfl,
    show sm1f 2 = fin 0 from rfl, show sm1f 3 = fin 1 from rfl,
    show sm1f 4 = fin 1 from rfl, show sm1f 5 = fin 1 from rfl]
  simp only [fin_mul_fin, fin_sub_fin, fin_add_fin]
  have hnum : (1 : ℝ) - 2 * θ * 1 + θ * θ * 1 = (1 - θ) ^ 2 := by ring
  have hden : (2 : ℝ) - 1 - 2 * θ * (0 - 1) + θ * θ * (2 - 1) = (1 + θ) ^ 2 := by
    ring
  rw [hnum, hden]
  rw [if_pos]
  · rw [fin_div_fin (by positivity : ((1 : ℝ) + θ) ^ 2 ≠ 0)]
    rw [show ((1 : ℝ) - θ) ^ 2 / (1 + θ) ^ 2 = ((1 - θ) / (1 + θ)) ^ 2 by
      rw [div_pow]]
    rw [rsqrt_fin (by positivity)]
    rw [Real.sqrt_sq (div_nonneg (by linarith) (by linarith))]
    rw [fin_div_fin (by simpa using hb : (1 : ℝ) - θ * 1 ≠ 0)]
    rw [fin_mul_fin]
    refine congrArg fin ?_
    field_simp
    ring
  · have hp1 : (0 : ℝ) < (1 - θ) ^ 2 := pow_two_pos_of_ne_zero (by linarith)
    have hp2 : (0 : ℝ) < (1 + θ) ^ 2 := pow_two_pos_of_ne_zero ha
    have hd1 : (1 : ℝ) - θ * 1 ≠ 0 := by simpa using hb
    simp [Real.sign_of_pos hp1, Real.sign_of_pos hp2, ne_of_gt hp2, hd1, hb]

/-- On the simplified moments of `mv1`, `lambda` is constantly `1` above
`theta = 1`. -/
theorem lambdafast_sm1_hi {θ : ℝ} (h1 : 1 < θ) :
    lambdafast (fin θ) sm1f = fin 1 := by
  have ha : (1 : ℝ) + θ ≠ 0 := by linarith
  have hb : (1 : ℝ) - θ ≠ 0 := by linarith
  rw [lambdafast]
  rw [show sm1f 0 = fin 2 from rfl, show sm1f 1 = fin 2 from rfl,
    show sm1f 2 = fin 0 from rfl, show sm1f 3 = fin 1 from rfl,
    show sm1f 4 = fin 1 from rfl, show sm1f 5 = fin 1 from rfl]
  simp only [fin_mul_fin, fin_sub_fin, fin_add_fin]
  have hnum : (1 : ℝ) - 2 * θ * 1 + θ * θ * 1 = (θ - 1) ^ 2 := by ring
  have hden : (2 : ℝ) - 1 - 2 * θ * (0 - 1) + θ * θ * (2 - 1) = (1 + θ) ^ 2 := by
    ring
  rw [hnum, hden]
  rw [if_pos]
  · rw [fin_div_fin (by positivity : ((1 : ℝ) + θ) ^ 2 ≠ 0)]
    rw [show ((θ : ℝ) - 1) ^ 2 / (1 + θ) ^ 2 = ((θ - 1) / (1 + θ)) ^ 2 by
      rw [div_pow]]
    rw [rsqrt_fin (by positivity)]
    rw [Real.sqrt_sq (div_nonneg (by linarith) (by linarith))]
    rw [fin_div_fin (by simpa using hb : (1 : ℝ) - θ * 1 ≠ 0)]
    rw [fin_mul_fin]
    refine congrArg fin ?_
    field_simp
    ring
  · have hp1 : (0 : ℝ) < (θ - 1) ^ 2 := pow_two_pos_of_ne_zero (by linarith)
    have hp2 : (0 : ℝ) < (1 + θ) ^ 2 := pow_two_pos_of_ne_zero ha
    have hd1 : (1 : ℝ) - θ * 1 ≠ 0 := by simpa using hb
    simp [Real.sign_of_pos hp1, Real.sign_of_pos hp2, ne_of_gt hp2, hd1, hb]

/-- From equal nonzero signs, the ratio is positive. -/
theorem ratio_pos_of_sign_eq {n d : ℝ} (hd : d ≠ 0)
    (hs : Real.sign n = Real.sign d) : 0 < n / d := by
  rcases lt_trichotomy d 0 with h | h | h
  · rcases lt_trichotomy n 0 with hn | hn | hn
    · exact div_pos_of_neg_of_neg hn h
    · rw [hn, Real.sign_zero, Real.sign_of_neg h] at hs
      norm_num at hs
    · rw [Real.sign_of_pos hn, Real.sign_of_neg h] at hs
      norm_num at hs
  · exact absurd h hd
  · rcases lt_trichotomy n 0 with hn | hn | hn
    · rw [Real.sign_of_neg hn, Real.sign_of_pos h] at hs
      norm_num at hs
    · rw [hn, Real.sign_zero, Real.sign_of_pos h] at hs
      norm_num at hs
    · exact div_pos hn h

open Classical

/-- C1: on real inputs, `lambdafast` is NaN exactly when the first
factor's denominator is zero, the second factor's denominator is zero, or
the first factor's numerator and denominator do not share the same
`np.sign`; at every other `theta` it is the finite value
`(lf1_num/lf1_denom) * sqrt(lf0_num/lf0_denom)`. -/
theorem lambdafast_nan_mask (θ : ℝ) (s : Fin 6 → ℝ) :
    lambdafast (fin θ) (fun i => fin (s i)) =
      if (s 0 - s 3) - 2 * θ * (s 2 - s 5) + θ ^ 2 * (s 1 - s 4) = 0 ∨
          s 5 - θ * s 4 = 0 ∨
          Real.sign (s 3 - 2 * θ * s 5 + θ ^ 2 * s 4) ≠
            Real.sign ((s 0 - s 3) - 2 * θ * (s 2 - s 5) + θ ^ 2 * (s 1 - s 4))
        then nan
        else fin ((s 2 - s 5 - θ * (s 1 - s 4)) / (s 5 - θ * s 4) *
          Real.sqrt ((s 3 - 2 * θ * s 5 + θ ^ 2 * s 4) /
            ((s 0 - s 3) - 2 * θ * (s 2 - s 5) + θ ^ 2 * (s 1 - s 4)))) := by
  rw [lambdafast]
  simp only [fin_mul_fin, fin_sub_fin, fin_add_fin]
  rw [show θ * θ = θ ^ 2 from (sq θ).symm]
  by_cases hcond : (s 0 - s 3) - 2 * θ * (s 2 - s 5) + θ ^ 2 * (s 1 - s 4) = 0 ∨
      s 5 - θ * s 4 = 0 ∨
      Real.sign (s 3 - 2 * θ * s 5 + θ ^ 2 * s 4) ≠
        Real.sign ((s 0 - s 3) - 2 * θ * (s 2 - s 5) + θ ^ 2 * (s 1 - s 4))
  · have hmask : (rneB (fin (s 0 - s 3 - 2 * θ * (s 2 - s 5) +
          θ ^ 2 * (s 1 - s 4))) (fin 0) &&
        rneB (fin (s 5 - θ * s 4)) (fin 0) &&
        rEqB (rsign (fin (s 3 - 2 * θ * s 5 + θ ^ 2 * s 4)))
          (rsign (fin (s 0 - s 3 - 2 * θ * (s 2 - s 5) +
            θ ^ 2 * (s 1 - s 4))))) = false := by
      rcases hcond with h | h | h
      · simp [show s 0 - s 3 - 2 * θ * (s 2 - s 5) + θ ^ 2 * (s 1 - s 4) = 0
          from h]
      · simp [h]
      · simp only [rsign_fin, rEqB_fin_fin]
        simp [h]
    rw [hmask, if_pos hcond]
    simp
  · have hd0 : (s 0 - s 3) - 2 * θ * (s 2 - s 5) + θ ^ 2 * (s 1 - s 4) ≠ 0 :=
      fun hc => hcond (Or.inl hc)
    have hd1 : s 5 - θ * s 4 ≠ 0 := fun hc => hcond (Or.inr (Or.inl hc))
    have hsg : Real.sign (s 3 - 2 * θ * s 5 + θ ^ 2 * s 4) =
        Real.sign ((s 0 - s 3) - 2 * θ * (s 2 - s 5) + θ ^ 2 * (s 1 - s 4)) :=
      not_not.mp (fun hc => hcond (Or.inr (Or.inr hc)))
    have hmask : (rneB (fin (s 0 - s 3 - 2 * θ * (s 2 - s 5) +
          θ ^ 2 * (s 1 - s 4))) (fin 0) &&
        rneB (fin (s 5 - θ * s 4)) (fin 0) &&
        rEqB (rsign (fin (s 3 - 2 * θ * s 5 + θ ^ 2 * s 4)))
          (rsign (fin (s 0 - s 3 - 2 * θ * (s 2 - s 5) +
            θ ^ 2 * (s 1 - s 4))))) = true := by
      simp only [rsign_fin, rEqB_fin_fin, rneB_def, Bool.and_eq_true,
        Bool.not_eq_true', decide_eq_false_iff_not, decide_eq_true_eq]
      exact ⟨⟨hd0, hd1⟩, hsg⟩
    rw [hmask, if_neg hcond]
    simp only [if_true]
    rw [fin_div_fin hd1, fin_div_fin hd0,
      rsqrt_fin (le_of_lt (ratio_pos_of_sign_eq hd0 hsg)), fin_mul_fin]

/-- The `Except.ok` output of `simplify_moments` always has real entries
0-2, and its entries 3-5 are either all NaN (singular `XX`), or reals in
positions 3-4 with position 5 real or NaN. -/
theorem simplify_shape (mv : List ℝ) (sm : Fin 6 → RVal)
    (h : simplify_moments mv = .ok sm) :
    ∃ a b c : ℝ, sm 0 = fin a ∧ sm 1 = fin b ∧ sm 2 = fin c ∧
      ((sm 3 = nan ∧ sm 4 = nan ∧ sm 5 = nan) ∨
        (∃ p q : ℝ, sm 3 = fin p ∧ sm 4 = fin q ∧
          ((∃ r : ℝ, sm 5 = fin r) ∨ sm 5 = nan))) := by
  rw [simplify_moments] at h
  by_cases hc1 : 2 * (mv.length + 1) = kOf mv.length ^ 2 + kOf mv.length
  swap
  · rw [if_neg hc1] at h; exact absurd h (by simp)
  rw [if_pos hc1] at h
  by_cases hc2 : kOf mv.length * (kOf mv.length + 1) / 2 = mv.length + 1
  swap
  · rw [if_neg hc2] at h; exact absurd h (by simp)
  rw [if_pos hc2] at h
  rcases hY2 : pyGet mv ((mv.length : ℤ) - 3) with e | vY2 <;> rw [hY2] at h
  · exact absurd h (by simp)
  rcases hEY : pyGet mv ((kOf mv.length : ℤ) - 3) with e | vEY <;> rw [hEY] at h
  · exact absurd h (by simp)
  rcases hZ2 : pyGet mv ((mv.length : ℤ) - 1) with e | vZ2 <;> rw [hZ2] at h
  · exact absurd h (by simp)
  rcases hEZ : pyGet mv ((kOf mv.length : ℤ) - 2) with e | vEZ <;> rw [hEZ] at h
  · exact absurd h (by simp)
  rcases hYZ : pyGet mv ((mv.length : ℤ) - 2) with e | vYZ <;> rw [hYZ] at h
  · exact absurd h (by simp)
  simp only [exceptBindOk] at h
  refine ⟨vY2 - vEY ^ 2, vZ2 - vEZ ^ 2, vYZ - vEZ * vEY, ?_⟩
  by_cases hsing : smHat mv (kOf mv.length) = none
  · rw [if_pos hsing] at h
    by_cases hk4 : kOf mv.length = 4
    · rw [if_pos hk4] at h
      injection h with h'
      subst h'
      exact ⟨rfl, rfl, rfl, Or.inl ⟨rfl, rfl, rfl⟩⟩
    · rw [if_neg hk4] at h
      injection h with h'
      subst h'
      exact ⟨rfl, rfl, rfl, Or.inl ⟨rfl, rfl, rfl⟩⟩
  · rw [if_neg hsing] at h
    set hat := (smHat mv (kOf mv.length)).getD (0, 0, 0) with hhat
    by_cases hk4 : kOf mv.length = 4
    · rw [if_pos hk4] at h
      injection h with h'
      subst h'
      refine ⟨rfl, rfl, rfl, Or.inr ⟨_, _, rfl, rfl, ?_⟩⟩
      by_cases hneg : (hat.1 - vEY ^ 2) * (hat.2.1 - vEZ ^ 2) < 0
      · right
        show rsign (fin (hat.2.2 - vEZ * vEY)) *
          rsqrt (fin (hat.1 - vEY ^ 2) * fin (hat.2.1 - vEZ ^ 2)) = nan
        rw [fin_mul_fin, rsqrt, if_pos hneg, mul_nan]
      · left
        refine ⟨Real.sign (hat.2.2 - vEZ * vEY) *
          Real.sqrt ((hat.1 - vEY ^ 2) * (hat.2.1 - vEZ ^ 2)), ?_⟩
        show rsign (fin (hat.2.2 - vEZ * vEY)) *
          rsqrt (fin (hat.1 - vEY ^ 2) * fin (hat.2.1 - vEZ ^ 2)) = _
        rw [fin_mul_fin, rsqrt, if_neg hneg, rsign_fin, fin_mul_fin]
    · rw [if_neg hk4] at h
      injection h with h'
      subst h'
      exact ⟨rfl, rfl, rfl, Or.inr ⟨_, _, rfl, rfl, Or.inl ⟨_, rfl⟩⟩⟩

/-- `lambda(0)` is NaN when simplified moment 3 is NaN. -/
theorem lambdafast_zero_nan3 (sm : Fin 6 → RVal) (h3 : sm 3 = nan) :
    lambdafast (fin 0) sm = nan := by
  rw [lambdafast, h3]
  simp

/-- `lambda(0)` is NaN when simplified moment 5 is NaN (moments 3-4 real). -/
theorem lambdafast_zero_nan5 (sm : Fin 6 → RVal) (p q : ℝ) (h3 : sm 3 = fin p)
    (h4 : sm 4 = fin q) (h5 : sm 5 = nan) : lambdafast (fin 0) sm = nan := by
  rw [lambdafast, h3, h4, h5]
  simp

/-- C3: the grid evaluator at `theta = 0` agrees with the closed-form
`lambda0_fun` on the simplified moments of any moment vector, given the
claim's preconditions `var(Yhat) != var(Y)` and `cov(Yhat,Zhat) != 0`
(numpy `!=` comparisons, as in the source masks). -/
theorem lambda0_matches_lambdafast_at_zero (mv : List ℝ) (sm : Fin 6 → RVal)
    (h : simplify_moments mv = .ok sm)
    (h1 : rneB (sm 0) (sm 3) = true) (h2 : rneB (sm 5) (fin 0) = true) :
    lambda0_fun mv = .ok (lambdafast (fin 0) sm) := by
  obtain ⟨a, b, c, h0, hb1, hc2, hrest⟩ := simplify_shape mv sm h
  rw [lambda0_fun]
  simp only [h, exceptBindOk, exceptPure]
  refine congrArg Except.ok ?_
  rcases hrest with ⟨h3, h4, h5⟩ | ⟨p, q, h3, h4, h5⟩
  · rw [lambdafast_zero_nan3 sm h3, h3]
    simp
  · rcases h5 with ⟨r, h5⟩ | h5
    · rw [h0, h3] at h1
      rw [h5] at h2
      have hap : a ≠ p := by simpa using h1
      have hr0 : r ≠ 0 := by simpa using h2
      have hap' : a - p ≠ 0 := sub_ne_zero.mpr hap
      rw [lambdafast, h0, hb1, hc2, h3, h4, h5]
      simp only [fin_mul_fin, fin_sub_fin, fin_add_fin]
      norm_num
      by_cases hsg : Real.sign p = Real.sign (a - p)
      · simp [hap, hr0, hap', hsg, fin_div_fin]
      · simp [hap, hr0, hap', hsg, fin_div_fin]
    · rw [lambdafast_zero_nan5 sm p q h3 h4 h5, h5]
      simp

/-- Witness for C3 at the concrete moment vector `mv1`. -/
theorem lambda0_matches_witness :
    lambda0_fun mv1 = .ok (lambdafast (fin 0) sm1f) :=
  lambda0_matches_lambdafast_at_zero mv1 sm1f simplify_mv1
    (by rw [show sm1f 0 = fin 2 from rfl, show sm1f 3 = fin 1 from rfl]
        simp)
    (by rw [show sm1f 5 = fin 1 from rfl]
        simp)

/-- C2: when `lambda_star` lies inside `lambda_range` (in the source's
comparison order), `estimate_theta` short-circuits: the bounds are
`(-inf, +inf)` and all `m` gradient entries are exactly zero, for every
`theta_segments` argument. -/
theorem estimate_theta_unidentified (mv : List ℝ) (lr : RVal × RVal)
    (segs : List RVal) (ls ts : RVal)
    (hls : lambdastar mv = .ok ls) (hts : thetastar mv = .ok ts)
    (hcond : (rleB lr.1 ls && rleB ls lr.2) = true) :
    estimate_theta mv lr segs =
      .ok ((ninf, List.replicate mv.length (fin 0)),
        (pinf, List.replicate mv.length (fin 0))) := by
  rw [estimate_theta]
  simp only [hls, hts, exceptBindOk]
  rw [if_pos hcond]
  rfl

/-- Witness for C2: `mv1` with `lambda_range = [0, 2]` contains
`lambda_star = 1`. -/
theorem estimate_theta_unidentified_witness :
    estimate_theta mv1 (fin 0, fin 2) segs1 =
      .ok ((ninf, List.replicate mv1.length (fin 0)),
        (pinf, List.replicate mv1.length (fin 0))) :=
  estimate_theta_unidentified mv1 (fin 0, fin 2) segs1 (fin 1) (fin 1)
    lambdastar_mv1 thetastar_mv1 (by norm_num)

/-- C4: on the Scenario-4 moment vector (`cov(Z,X) = 0` exactly, so
`theta_star` is NaN), `estimate_theta_segments` fails with the
unassigned-variable error from its final `else` branch instead of
returning a segment list. -/
theorem estimate_theta_segments_mv4_unbound :
    estimate_theta_segments mv4 =
      .error "UnboundLocalError: local variable i referenced before assignment" := by
  rw [estimate_theta_segments]
  simp only [simplify_mv4, thetastar_mv4, exceptBindOk, isFinite_nan]
  simp

/-- C9: when the scalar estimate `func(moment_vector)` is not finite,
`estimate_parameter` skips numerical differentiation and returns the
non-finite value followed by exact zeros. -/
theorem estimate_parameter_nonfinite (func : List ℝ → Except String RVal)
    (mv : List ℝ) (v : RVal) (hv : func mv = .ok v)
    (hnf : v.isFinite = false) :
    estimate_parameter func mv = .ok (v :: List.replicate mv.length (fin 0)) := by
  rw [estimate_parameter]
  simp only [hv, exceptBindOk, hnf]
  simp

/-- Witness for C9: `lambda_star` of `mv4` is `+inf`. -/
theorem estimate_parameter_nonfinite_witness :
    estimate_parameter lambdastar mv4 =
      .ok (pinf :: List.replicate mv4.length (fin 0)) :=
  estimate_parameter_nonfinite lambdastar mv4 pinf lambdastar_mv4 rfl

/-- Propagating `true` through one flag-lowering conditional. -/
theorem ite_false_eq_true {c : Bool} {x : Bool}
    (h : (if c = true then false else x) = true) : x = true := by
  by_cases hc : c = true
  · rw [if_pos hc] at h
    exact absurd h (by simp)
  · rwa [if_neg hc] at h

/-- C10: `check_moments` never reports an identified but invalid moment
vector: `identified = true` implies `valid = true`. -/
theorem check_moments_identified_implies_valid (mv : List ℝ) (v i : Bool)
    (h : check_moments mv = .ok (v, i)) (hi : i = true) : v = true := by
  rw [check_moments] at h
  rcases hsm : simplify_moments mv with e | sm <;> rw [hsm] at h
  · exact absurd h (by simp)
  simp only [exceptBindOk, exceptPure] at h
  injection h with h'
  have hv := congrArg Prod.fst h'
  have hid := congrArg Prod.snd h'
  simp only at hv hid
  have hIC := hid.trans hi
  have hVC := ite_false_eq_true (ite_false_eq_true (ite_false_eq_true
    (ite_false_eq_true hIC)))
  exact hv ▸ hVC

/-- Witness for C10 at `mv1`. -/
theorem check_moments_identified_implies_valid_witness :
    check_moments mv1 = .ok (true, true) ∧ (true : Bool) = true :=
  ⟨check_moments_mv1,
    check_moments_identified_implies_valid mv1 true true check_moments_mv1 rfl⟩

/-- Index accesses of `simplify_moments` succeed on a length-9 vector. -/
theorem pyGet_len9 (mv : List ℝ) (hlen : mv.length = 9) (idx : ℤ)
    (hi0 : 0 ≤ idx) (hi9 : idx < 9) :
    pyGet mv idx = .ok (mv.getD idx.toNat 0) := by
  simp only [pyGet, hlen]
  rw [if_neg (not_lt.mpr hi0)]
  rw [if_pos ⟨hi0, by exact_mod_cast hi9⟩]

/-- C6: with exactly one control variable (`m = 9`, `k = 4`) and an
invertible control block, simplified moment 5 equals
`sign(raw cov(Yhat,Zhat)) * sqrt(sm3 * sm4)` exactly. -/
theorem simplify_forced_corr (mv : List ℝ) (sm : Fin 6 → RVal)
    (hlen : mv.length = 9) (hdet : (XXof mv 4).det ≠ 0)
    (h : simplify_moments mv = .ok sm) :
    sm 5 = rsign (fin (rawCovYZhat mv 4)) * rsqrt (sm 3 * sm 4) := by
  have hk4 : kOf mv.length = 4 := by rw [hlen]; decide
  rw [simplify_moments] at h
  rw [if_pos (by rw [hlen]; decide :
    2 * (mv.length + 1) = kOf mv.length ^ 2 + kOf mv.length)] at h
  rw [if_pos (by rw [hlen]; decide :
    kOf mv.length * (kOf mv.length + 1) / 2 = mv.length + 1)] at h
  rw [hk4] at h
  rw [pyGet_len9 mv hlen ((mv.length : ℤ) - 3) (by rw [hlen]; norm_num)
      (by rw [hlen]; norm_num),
    pyGet_len9 mv hlen (((4 : ℕ) : ℤ) - 3) (by norm_num) (by norm_num),
    pyGet_len9 mv hlen ((mv.length : ℤ) - 1) (by rw [hlen]; norm_num)
      (by rw [hlen]; norm_num),
    pyGet_len9 mv hlen (((4 : ℕ) : ℤ) - 2) (by norm_num) (by norm_num),
    pyGet_len9 mv hlen ((mv.length : ℤ) - 2) (by rw [hlen]; norm_num)
      (by rw [hlen]; norm_num)] at h
  simp only [exceptBindOk] at h
  rw [smHat] at h
  rw [if_neg hdet] at h
  rw [if_neg (by simp : ¬(some
    (Matrix.dotProduct (XYof mv 4) ((XXof mv 4)⁻¹.mulVec (XYof mv 4)),
      Matrix.dotProduct (XZof mv 4) ((XXof mv 4)⁻¹.mulVec (XZof mv 4)),
      Matrix.dotProduct (XYof mv 4) ((XXof mv 4)⁻¹.mulVec (XZof mv 4))) =
    none))] at h
  simp only [Option.getD_some] at h
  rw [if_pos trivial] at h
  injection h with h'
  subst h'
  rfl

/-- Witness for C6 at `mv1`. -/
theorem simplify_forced_corr_witness :
    sm1f 5 = rsign (fin (rawCovYZhat mv1 4)) * rsqrt (sm1f 3 * sm1f 4) :=
  simplify_forced_corr mv1 sm1f rfl
    (by rw [XXof_mv1, Matrix.det_one]; norm_num) simplify_mv1

/-- C7 counterexample: the length-5 vector `mvLen5` admits no `k >= 4`
with `2*(m+1) = k^2 + k` (only `k = 3` works), yet `simplify_moments`
accepts it and returns a result instead of failing. -/
theorem simplify_len5_accepted :
    mvLen5.length = 5 ∧
      simplify_moments mvLen5 = .ok ![fin 1, fin 1, fin 0, fin 0, fin 0, fin 0] :=
  ⟨rfl, simplify_mvLen5⟩

/-- C7 amended: `simplify_moments` fails with its length assertion exactly
when no integer `k` at all satisfies `2*(m+1) = k^2 + k`; the `k >= 4`
requirement is not enforced here (it lives in `check_input_values`, outside
the `estimate_model` path). -/
theorem simplify_malformed_length_fails (mv : List ℝ)
    (h : ¬ ∃ k : ℕ, 2 * (mv.length + 1) = k ^ 2 + k) :
    simplify_moments mv = .error "AssertionError: 2*(m+1) == k**2 + k" := by
  rw [simplify_moments]
  rw [if_neg (fun hc => h ⟨kOf mv.length, hc⟩)]

/-- Witness for the amended C7 at the length-6 vector. -/
theorem simplify_malformed_length_fails_witness :
    simplify_moments mvLen6 = .error "AssertionError: 2*(m+1) == k**2 + k" :=
  simplify_malformed_length_fails mvLen6 (by
    rintro ⟨k, hk⟩
    rw [show mvLen6.length = 6 from rfl] at hk
    have hk4 : k < 4 := by nlinarith
    interval_cases k <;> norm_num at hk)

/-! ## C5: which qualifying iteration `bracket_theta_star` keeps -/

/-- A conditional fold that never fires leaves the accumulator unchanged. -/
theorem foldl_cond_no_update {β : Type} (p : ℕ → Bool) (g : ℕ → β) :
    ∀ (l : List ℕ) (init : β), (∀ j ∈ l, p j = false) →
      l.foldl (fun st i => if p i then g i else st) init = init := by
  intro l
  induction l with
  | nil => intro init _; rfl
  | cons a t ih =>
    intro init h
    rw [List.foldl_cons, if_neg (by simp [h a (List.mem_cons_self a t)])]
    exact ih init (fun j hj => h j (List.mem_cons_of_mem a hj))

/-- A conditional fold over `range' s n` whose predicate holds at `i0` and
at no later index returns the update of `i0`: the LAST firing index wins. -/
theorem foldl_cond_last {β : Type} (p : ℕ → Bool) (g : ℕ → β) :
    ∀ (n s : ℕ) (init : β) (i0 : ℕ), s ≤ i0 → i0 < s + n → p i0 = true →
      (∀ j, i0 < j → j < s + n → p j = false) →
      (List.range' s n).foldl (fun st i => if p i then g i else st) init
        = g i0 := by
  intro n
  induction n with
  | zero => intro s init i0 h1 h2 _ _; omega
  | succ n ih =>
    intro s init i0 h1 h2 hq hlast
    rw [show List.range' s (n + 1) = s :: List.range' (s + 1) n from rfl,
      List.foldl_cons]
    rcases eq_or_lt_of_le h1 with he | hlt
    · subst he
      rw [if_pos hq]
      exact foldl_cond_no_update p g _ (g s) (fun j hj => by
        have hm := List.mem_range'_1.mp hj
        exact hlast j (by omega) (by omega))
    · exact ih (s + 1) (if p s = true then g s else init) i0 hlt (by omega)
        hq (fun j hj1 hj2 => hlast j hj1 (by omega))

/-- For real moments with an accepted `theta_star` and a non-degenerate
ratio, `bracket_theta_star` reduces to the conditional fold over `1..100`. -/
theorem bracket_theta_star_eq_foldl (mv : List ℝ) (ts : RVal)
    (sm : Fin 6 → RVal) (hts : thetastar mv = .ok ts)
    (hsm : simplify_moments mv = .ok sm)
    (hne : rEqB (sm 2) ((sm 5) * (sm 1) / (sm 4)) = false) :
    bracket_theta_star mv = .ok ((List.range' 1 100).foldl
      (fun (st : ℕ × Option (RVal × RVal)) i =>
        if bts_qual ts sm i then (i, some (bts_candidate ts i)) else st)
      (0, none)).2 := by
  rw [bracket_theta_star, hts, hsm]
  simp only [exceptBindOk, hne]
  rw [if_neg (by simp [hne])]
  rfl

/-- The candidate pair at `theta_star = 1` in closed form. -/
theorem bts_candidate_one (i : ℕ) :
    bts_candidate (fin 1) i
      = (fin (1 - (0.1 : ℝ) ^ i), fin (1 + (0.1 : ℝ) ^ i)) := by
  have h1 : pymax2 (rabs (fin 1)) (fin 1) = fin 1 := by
    simp [pymax2, rgtB, rltB, abs_one]
  rw [bts_candidate, h1]
  simp only [fin_mul_fin, fin_add_fin]
  norm_num
  ring

/-- Every iteration `i >= 1` qualifies on the moments of `mv1`. -/
theorem bts_qual_mv1 (i : ℕ) (hi : 1 ≤ i) :
    bts_qual (fin 1) sm1f i = true := by
  have hp : (0 : ℝ) < (0.1 : ℝ) ^ i := by positivity
  have hle : (0.1 : ℝ) ^ i ≤ (0.1 : ℝ) ^ 1 :=
    pow_le_pow_of_le_one (by norm_num) (by norm_num) hi
  rw [pow_one] at hle
  have htl : bts_true_limit sm1f = (fin (-floatMax), fin floatMax) := by
    rw [bts_true_limit,
      show sm1f 2 = fin 0 from rfl, show sm1f 5 = fin 1 from rfl,
      show sm1f 1 = fin 2 from rfl, show sm1f 4 = fin 1 from rfl,
      fin_mul_fin, fin_div_fin one_ne_zero, fin_sub_fin,
      show (0 : ℝ) - 1 * 2 / 1 = -2 by norm_num,
      rsign_fin, Real.sign_of_neg (by norm_num : (-2 : ℝ) < 0)]
    simp only [fin_mul_fin]
    norm_num
  have hlo : lambdafast (fin (1 - (0.1 : ℝ) ^ i)) sm1f = fin (-1) :=
    lambdafast_sm1_mid (by linarith) (by linarith)
  have hhi : lambdafast (fin (1 + (0.1 : ℝ) ^ i)) sm1f = fin 1 :=
    lambdafast_sm1_hi (by linarith)
  have hs1 : Real.sign (-floatMax) = -1 :=
    Real.sign_of_neg (by linarith [floatMax_pos])
  have hs2 : Real.sign floatMax = 1 := Real.sign_of_pos floatMax_pos
  simp only [bts_qual, bts_candidate_one, htl, hlo, hhi, rsign_fin, hs1, hs2,
    fin_mul_fin, isFinite_fin, rgtB, rltB, Bool.and_eq_true, decide_eq_true_eq]
  norm_num

/-- The non-degeneracy test on the moments of `mv1` is false. -/
theorem sm1f_ratio_ne :
    rEqB (sm1f 2) ((sm1f 5) * (sm1f 1) / (sm1f 4)) = false := by
  rw [show sm1f 2 = fin 0 from rfl, show sm1f 5 = fin 1 from rfl,
    show sm1f 1 = fin 2 from rfl, show sm1f 4 = fin 1 from rfl,
    fin_mul_fin, fin_div_fin one_ne_zero]
  simp only [rEqB, decide_eq_false_iff_not]
  norm_num

/-- C5 counterexample: on `mv1` the very first trial `i = 1` already
qualifies, yet `bracket_theta_star` returns the candidate of `i = 100`
(the narrowest qualifying pair), which differs from the `i = 1` pair. -/
theorem bracket_theta_star_not_widest :
    bts_qual (fin 1) sm1f 1 = true ∧
      bracket_theta_star mv1 = .ok (some (bts_candidate (fin 1) 100)) ∧
      bts_candidate (fin 1) 100 ≠ bts_candidate (fin 1) 1 := by
  refine ⟨bts_qual_mv1 1 le_rfl, ?_, ?_⟩
  · rw [bracket_theta_star_eq_foldl mv1 (fin 1) sm1f thetastar_mv1
      simplify_mv1 sm1f_ratio_ne]
    rw [foldl_cond_last (bts_qual (fin 1) sm1f)
      (fun i => (i, some (bts_candidate (fin 1) i))) 100 1 (0, none) 100
      (by omega) (by omega) (bts_qual_mv1 100 (by omega))
      (fun j hj1 hj2 => absurd hj1 (by omega))]
  · intro h
    have h2 := congrArg Prod.snd h
    rw [bts_candidate_one, bts_candidate_one] at h2
    simp only [RVal.fin.injEq] at h2
    have hlt : (0.1 : ℝ) ^ 100 < (0.1 : ℝ) ^ 1 := by
      apply pow_lt_pow_right_of_lt_one₀ (by norm_num) (by norm_num)
        (by norm_num)
    rw [pow_one] at hlt
    have : (0.1 : ℝ) ^ 100 = 0.1 := by linarith [h2]
    linarith

/-- C5 (amended): for real moments whose `theta_star` and simplified
moments are accepted and whose ratio test is non-degenerate,
`bracket_theta_star` returns `none` when no trial in `1..100` qualifies,
and otherwise the candidate of the LARGEST qualifying index (each later
success overwrites the earlier one), not the smallest. -/
theorem bracket_theta_star_keeps_last (mv : List ℝ) (ts : RVal)
    (sm : Fin 6 → RVal) (hts : thetastar mv = .ok ts)
    (hsm : simplify_moments mv = .ok sm)
    (hne : rEqB (sm 2) ((sm 5) * (sm 1) / (sm 4)) = false) :
    ((∀ j ∈ List.range' 1 100, bts_qual ts sm j = false) →
      bracket_theta_star mv = .ok none) ∧
    (∀ i0 ∈ List.range' 1 100, bts_qual ts sm i0 = true →
      (∀ j, i0 < j → j ≤ 100 → bts_qual ts sm j = false) →
      bracket_theta_star mv = .ok (some (bts_candidate ts i0))) := by
  constructor
  · intro hall
    rw [bracket_theta_star_eq_foldl mv ts sm hts hsm hne]
    rw [foldl_cond_no_update (bts_qual ts sm)
      (fun i => (i, some (bts_candidate ts i))) (List.range' 1 100)
      (0, none) hall]
  · intro i0 hi0 hq hlast
    have hm := List.mem_range'_1.mp hi0
    rw [bracket_theta_star_eq_foldl mv ts sm hts hsm hne]
    rw [foldl_cond_last (bts_qual ts sm)
      (fun i => (i, some (bts_candidate ts i))) 100 1 (0, none) i0
      (by omega) (by omega) hq
      (fun j hj1 hj2 => hlast j hj1 (by omega))]

/-- Witness for the amended C5 at `mv1`, where the largest qualifying
index is `i = 100`. -/
theorem bracket_theta_star_keeps_last_witness :
    bracket_theta_star mv1 = .ok (some (bts_candidate (fin 1) 100)) :=
  (bracket_theta_star_keeps_last mv1 (fin 1) sm1f thetastar_mv1
    simplify_mv1 sm1f_ratio_ne).2 100
    (List.mem_range'_1.mpr (by omega)) (bts_qual_mv1 100 (by omega))
    (fun j hj1 hj2 => absurd hj1 (by omega))

/-! ## C8: ordering of the interval bounds -/

/-- `rleProp` is reflexive away from NaN. -/
theorem rleProp_refl {a : RVal} (h : a.isNan = false) : rleProp a a := by
  cases a <;> simp_all [rleProp, isFinite, RVal.isNan]

/-- `rleProp` is transitive. -/
theorem rleProp_trans {a b c : RVal} (hab : rleProp a b) (hbc : rleProp b c) :
    rleProp a c := by
  cases a <;> cases b <;> cases c <;> simp_all [rleProp]
  linarith

/-- A true strict comparison has a non-NaN left operand. -/
theorem rltB_left_not_nan {a b : RVal} (h : rltB a b = true) :
    a.isNan = false := by
  cases a <;> cases b <;> simp_all [rltB, RVal.isNan]

/-- A true strict comparison yields the non-strict extended order. -/
theorem rleProp_of_rltB {a b : RVal} (h : rltB a b = true) : rleProp a b := by
  cases a <;> cases b <;> simp_all [rltB, rleProp]
  linarith

/-- A true strict comparison has a non-NaN right operand. -/
theorem rltB_right_not_nan {a b : RVal} (h : rltB a b = true) :
    b.isNan = false := by
  cases a <;> cases b <;> simp_all [rltB, RVal.isNan]

/-- The Python-min fold keeps a non-NaN accumulator non-NaN and only
moves it down in the extended order. -/
theorem pyMinFold_le :
    ∀ (xs : List RVal) (a : RVal), a.isNan = false →
      (xs.foldl (fun m v => if rltB v m then v else m) a).isNan = false ∧
        rleProp (xs.foldl (fun m v => if rltB v m then v else m) a) a := by
  intro xs
  induction xs with
  | nil => intro a ha; exact ⟨ha, rleProp_refl ha⟩
  | cons v rest ih =>
    intro a ha
    rw [List.foldl_cons]
    by_cases hv : rltB v a = true
    · rw [if_pos hv]
      have hvn := rltB_left_not_nan hv
      have hva := rleProp_of_rltB hv
      exact ⟨(ih v hvn).1, rleProp_trans (ih v hvn).2 hva⟩
    · rw [if_neg hv]
      exact ih a ha

/-- The Python-max fold keeps a non-NaN accumulator non-NaN and only
moves it up in the extended order. -/
theorem pyMaxFold_ge :
    ∀ (xs : List RVal) (a : RVal), a.isNan = false →
      (xs.foldl (fun m v => if rgtB v m then v else m) a).isNan = false ∧
        rleProp a (xs.foldl (fun m v => if rgtB v m then v else m) a) := by
  intro xs
  induction xs with
  | nil => intro a ha; exact ⟨ha, rleProp_refl ha⟩
  | cons v rest ih =>
    intro a ha
    rw [List.foldl_cons]
    by_cases hv : rgtB v a = true
    · rw [if_pos hv]
      have hv' : rltB a v = true := hv
      have hvn := rltB_right_not_nan hv'
      have hav := rleProp_of_rltB hv'
      exact ⟨(ih v hvn).1, rleProp_trans hav (ih v hvn).2⟩
    · rw [if_neg hv]
      exact ih a ha

/-- A NaN accumulator is absorbing for the Python-min fold. -/
theorem pyMinFold_nan :
    ∀ xs : List RVal,
      xs.foldl (fun m v => if rltB v m then v else m) nan = nan := by
  intro xs
  induction xs with
  | nil => rfl
  | cons v rest ih =>
    rw [List.foldl_cons, if_neg (by simp [rltB_nan_right])]
    exact ih

/-- A NaN accumulator is absorbing for the Python-max fold. -/
theorem pyMaxFold_nan :
    ∀ xs : List RVal,
      xs.foldl (fun m v => if rgtB v m then v else m) nan = nan := by
  intro xs
  induction xs with
  | nil => rfl
  | cons v rest ih =>
    rw [List.foldl_cons, if_neg (by simp [rgtB, rltB])]
    exact ih

/-- Every element selected by a boolean mask comes from the list. -/
theorem maskSel_subset {L : List RVal} {mask : List Bool} {x : RVal}
    (hx : x ∈ maskSel L mask) : x ∈ L := by
  rw [maskSel] at hx
  obtain ⟨p, hp, hpx⟩ := List.mem_map.mp hx
  have hz := List.mem_filter.mp hp
  exact hpx ▸ (List.of_mem_zip hz.1).1

/-- If the mask holds somewhere and is no longer than the list, the
selection is nonempty. -/
theorem maskSel_ne_nil :
    ∀ (mask : List Bool) (L : List RVal), true ∈ mask →
      mask.length ≤ L.length → maskSel L mask ≠ [] := by
  intro mask
  induction mask with
  | nil => intro L h; exact absurd h (List.not_mem_nil true)
  | cons b bs ih =>
    intro L h hlen
    cases L with
    | nil => simp at hlen
    | cons x xs =>
      rw [show maskSel (x :: xs) (b :: bs)
          = (if b = true then [(x, b)] else []).map Prod.fst
            ++ maskSel xs bs from by
        rw [maskSel, maskSel, List.zip_cons_cons, List.filter_cons]
        cases b <;> simp]
      cases b with
      | true => simp
      | false =>
        rw [if_neg Bool.false_ne_true, List.map_nil, List.nil_append]
        exact ih xs (by simpa using h) (by simpa using hlen)

/-- When a NaN is present, `argmin` and `argmax` coincide (numpy places
NaN first for both). -/
theorem argmin_argmax_nan {L : List RVal} {i : ℕ}
    (h : L.findIdx? RVal.isNan = some i) : argminNp L = i ∧ argmaxNp L = i := by
  rw [argminNp.eq_def, argmaxNp.eq_def, h]
  exact ⟨rfl, rfl⟩

/-- Inversion for a successful `Except` bind. -/
theorem exceptBind_ok_inv {α β : Type} {x : Except String α}
    {f : α → Except String β} {b : β} (h : x >>= f = .ok b) :
    ∃ a, x = .ok a ∧ f a = .ok b := by
  cases x with
  | error e => exact absurd h (by simp [exceptBindErr])
  | ok a => exact ⟨a, rfl, h⟩

/-- NaN is the only value with `isNan` true. -/
theorem eq_nan_of_isNan {a : RVal} (h : a.isNan = true) : a = nan := by
  cases a <;> simp_all [RVal.isNan]

/-- `-inf` is below every non-NaN value. -/
theorem rleProp_ninf_left {b : RVal} (h : b.isNan = false) : rleProp ninf b := by
  cases b <;> simp_all [rleProp, RVal.isNan]

/-- `+inf` is above every non-NaN value. -/
theorem rleProp_pinf_right {a : RVal} (h : a.isNan = false) :
    rleProp a pinf := by
  cases a <;> simp_all [rleProp, RVal.isNan]

/-- The bound-selection expressions of `boundsOf` are either both NaN or
ordered: the lower bound never exceeds the upper bound. -/
theorem sel_bounds_ordered (L : List RVal) (inr : List Bool)
    (hlen : inr.length = L.length) :
    ((if inr.count true = 0 then nan
      else if inr.getD (argminNp L) false then ninf
      else pyListMin (maskSel L inr)) = nan ∧
     (if inr.count true = 0 then nan
      else if inr.getD (argmaxNp L) false then pinf
      else pyListMax (maskSel L inr)) = nan) ∨
    rleProp
      (if inr.count true = 0 then nan
       else if inr.getD (argminNp L) false then ninf
       else pyListMin (maskSel L inr))
      (if inr.count true = 0 then nan
       else if inr.getD (argmaxNp L) false then pinf
       else pyListMax (maskSel L inr)) := by
  by_cases hc : inr.count true = 0
  · refine Or.inl ⟨?_, ?_⟩ <;> rw [if_pos hc]
  · have hmem : true ∈ inr := List.count_pos_iff.mp (Nat.pos_of_ne_zero hc)
    have hsel : maskSel L inr ≠ [] := maskSel_ne_nil inr L hmem (le_of_eq hlen)
    cases hs : maskSel L inr with
    | nil => exact absurd hs hsel
    | cons x t =>
      have hxL : x ∈ L := maskSel_subset (hs ▸ List.mem_cons_self x t)
      cases hfi : L.findIdx? RVal.isNan with
      | some i =>
        obtain ⟨hmin, hmax⟩ := argmin_argmax_nan hfi
        by_cases hgi : inr.getD i false = true
        · right
          rw [if_neg hc, if_neg hc, hmin, hmax, if_pos hgi, if_pos hgi]
          exact trivial
        · by_cases hx : x.isNan = true
          · have hxnan := eq_nan_of_isNan hx
            subst hxnan
            refine Or.inl ⟨?_, ?_⟩
            · rw [if_neg hc, hmin, if_neg hgi]
              exact pyMinFold_nan t
            · rw [if_neg hc, hmax, if_neg hgi]
              exact pyMaxFold_nan t
          · right
            have hxn : x.isNan = false := by simpa using hx
            rw [if_neg hc, if_neg hc, hmin, hmax, if_neg hgi, if_neg hgi]
            exact rleProp_trans (pyMinFold_le t x hxn).2 (pyMaxFold_ge t x hxn).2
      | none =>
        have hxn : x.isNan = false := List.findIdx?_eq_none_iff.mp hfi x hxL
        right
        rw [if_neg hc, if_neg hc]
        by_cases h1 : inr.getD (argminNp L) false = true
        · rw [if_pos h1]
          by_cases h2 : inr.getD (argmaxNp L) false = true
          · rw [if_pos h2]
            exact trivial
          · rw [if_neg h2]
            exact rleProp_ninf_left (pyMaxFold_ge t x hxn).1
        · rw [if_neg h1]
          by_cases h2 : inr.getD (argmaxNp L) false = true
          · rw [if_pos h2]
            exact rleProp_pinf_right (pyMinFold_le t x hxn).1
          · rw [if_neg h2]
            exact rleProp_trans (pyMinFold_le t x hxn).2 (pyMaxFold_ge t x hxn).2

/-- The two components of `boundsOf` are either both NaN or ordered. -/
theorem boundsOf_ordered (sm : Fin 6 → RVal) (lr : RVal × RVal) (k : ℕ)
    (L : List RVal) :
    ((boundsOf sm lr k L).1 = nan ∧ (boundsOf sm lr k L).2 = nan) ∨
      rleProp (boundsOf sm lr k L).1 (boundsOf sm lr k L).2 := by
  have hlen : (if 1 < k then
        forceFirst (k - 1) (inrangeList lr (L.map (fun t => lambdafast t sm)))
      else inrangeList lr (L.map (fun t => lambdafast t sm))).length
      = L.length := by
    split <;> simp [forceFirst, inrangeList, List.length_mapIdx]
  have h := sel_bounds_ordered L _ hlen
  simp only [boundsOf]
  exact h

/-- C8 (amended): whenever `estimate_theta` succeeds, the two returned
`theta` bounds are either both NaN (empty identified set) or ordered in
the extended sense `lower <= upper`; a single-point `lambda_range` need
not produce equal bounds. -/
theorem estimate_theta_bounds_ordered (mv : List ℝ) (lr : RVal × RVal)
    (segs : List RVal) (out : (RVal × List RVal) × (RVal × List RVal))
    (h : estimate_theta mv lr segs = .ok out) :
    (out.1.1 = nan ∧ out.2.1 = nan) ∨ rleProp out.1.1 out.2.1 := by
  simp only [estimate_theta] at h
  obtain ⟨ls, hls, h⟩ := exceptBind_ok_inv h
  beta_reduce at h
  obtain ⟨ts, hts, h⟩ := exceptBind_ok_inv h
  beta_reduce at h
  split at h
  · simp only [exceptPure] at h
    injection h with h
    subst h
    exact Or.inr trivial
  · obtain ⟨sm, hsm, h⟩ := exceptBind_ok_inv h
    beta_reduce at h
    obtain ⟨rootsK, hrk, h⟩ := exceptBind_ok_inv h
    beta_reduce at h
    split at h <;>
      (obtain ⟨y, hy, h⟩ := exceptBind_ok_inv h
       beta_reduce at h
       split at h <;>
         (obtain ⟨y1, hy1, h⟩ := exceptBind_ok_inv h
          beta_reduce at h
          simp only [exceptPure] at h
          injection h with h
          subst h
          exact boundsOf_ordered sm lr rootsK.2 (rootsK.1 ++ segs)))

/-- `lambda` at `theta = -1/2` on the moments of `mv1`. -/
theorem lam_mv1_a : lambdafast (fin (-(1 : ℝ) / 2)) sm1f = fin (-1) :=
  lambdafast_sm1_mid (by norm_num) (by norm_num)

/-- `lambda` at `theta = 0` on the moments of `mv1`. -/
theorem lam_mv1_b : lambdafast (fin (0 : ℝ)) sm1f = fin (-1) :=
  lambdafast_sm1_mid (by norm_num) (by norm_num)

/-- `lambda` at `theta = 1/2` on the moments of `mv1`. -/
theorem lam_mv1_c : lambdafast (fin ((1 : ℝ) / 2)) sm1f = fin (-1) :=
  lambdafast_sm1_mid (by norm_num) (by norm_num)

/-- On `mv1` with the single-point range `[-1, -1]`, the first segment
pair produces no root: both candidate `lambda` ends equal `-1`, and `-1`
is not strictly inside the degenerate `lambda` interval. -/
theorem et_root_step_mv1_a (st : List RVal × ℕ) :
    et_root_step sm1f (fin 1) (fin (-1), fin (-1)) st
      (fin (-(1 : ℝ) / 2), fin 0) = pure st := by
  have hcnd : ¬((rgtB (fin (-1)) (pymin2 (fin (-1)) (fin (-1))) &&
      rltB (fin (-1)) (pymax2 (fin (-1)) (fin (-1)))) = true) := by
    norm_num [rgtB, rltB, pymin2, pymax2]
  simp only [et_root_step]
  rw [if_pos (by norm_num [RVal.isFinite, rgeB, rleB])]
  simp only [lam_mv1_a, lam_mv1_b, List.foldlM_cons, List.foldlM_nil]
  rw [if_neg hcnd]
  simp only [exceptPure, exceptBindOk]
  rw [if_neg hcnd]
  simp only [exceptPure, exceptBindOk]

/-- Likewise for the second segment pair of `segs1`. -/
theorem et_root_step_mv1_b (st : List RVal × ℕ) :
    et_root_step sm1f (fin 1) (fin (-1), fin (-1)) st
      (fin (0 : ℝ), fin ((1 : ℝ) / 2)) = pure st := by
  have hcnd : ¬((rgtB (fin (-1)) (pymin2 (fin (-1)) (fin (-1))) &&
      rltB (fin (-1)) (pymax2 (fin (-1)) (fin (-1)))) = true) := by
    norm_num [rgtB, rltB, pymin2, pymax2]
  simp only [et_root_step]
  rw [if_pos (by norm_num [RVal.isFinite, rgeB, rleB])]
  simp only [lam_mv1_b, lam_mv1_c, List.foldlM_cons, List.foldlM_nil]
  rw [if_neg hcnd]
  simp only [exceptPure, exceptBindOk]
  rw [if_neg hcnd]
  simp only [exceptPure, exceptBindOk]

/-- The smallest element of `segs1` sits at index 0. -/
theorem argminNp_segs1 : argminNp segs1 = 0 := by
  rw [show argminNp segs1
      = argminAux [fin 0, fin ((1 : ℝ) / 2)] 1 (0, fin (-(1 : ℝ) / 2))
    from rfl]
  norm_num [argminAux, rltB]

/-- The largest element of `segs1` sits at index 2. -/
theorem argmaxNp_segs1 : argmaxNp segs1 = 2 := by
  rw [show argmaxNp segs1
      = argmaxAux [fin 0, fin ((1 : ℝ) / 2)] 1 (0, fin (-(1 : ℝ) / 2))
    from rfl]
  norm_num [argmaxAux, rgtB, rltB]

/-- With the single-point range `[-1, -1]` every element of `segs1` is in
range (`lambda` is constantly `-1` there), so the selected bounds are the
infinite ones. -/
theorem boundsOf_mv1_eval :
    boundsOf sm1f (fin (-1), fin (-1)) 1 segs1 = (ninf, pinf) := by
  have hlam : segs1.map (fun t => lambdafast t sm1f)
      = [fin (-1), fin (-1), fin (-1)] := by
    rw [show segs1 = [fin (-(1 : ℝ) / 2), fin (0 : ℝ), fin ((1 : ℝ) / 2)]
      from rfl]
    simp only [List.map_cons, List.map_nil, lam_mv1_a, lam_mv1_b, lam_mv1_c]
  have hinr : inrangeList (fin (-1), fin (-1)) [fin (-1), fin (-1), fin (-1)]
      = [true, true, true] := by
    norm_num [inrangeList, rgeB, rleB]
  simp only [boundsOf, hlam, hinr, argminNp_segs1, argmaxNp_segs1]
  rfl

/-- The full evaluation of `estimate_theta` on `mv1` with the single-point
`lambda_range` `[-1, -1]` and the segment list `segs1`. -/
theorem estimate_theta_mv1_eval :
    estimate_theta mv1 (fin (-1), fin (-1)) segs1 =
      .ok ((ninf, List.replicate 9 (fin 0)),
        (pinf, List.replicate 9 (fin 0))) := by
  simp only [estimate_theta, lambdastar_mv1, thetastar_mv1, exceptBindOk]
  rw [if_neg (by norm_num [rleB])]
  simp only [simplify_mv1, exceptBindOk]
  rw [show segs1.zip segs1.tail
      = [(fin (-(1 : ℝ) / 2), fin (0 : ℝ)), (fin (0 : ℝ), fin ((1 : ℝ) / 2))]
    from rfl]
  simp only [List.foldlM_cons, List.foldlM_nil, et_root_step_mv1_a,
    et_root_step_mv1_b, exceptPure, exceptBindOk, List.nil_append,
    boundsOf_mv1_eval]
  rfl

/-- C8 counterexample: `mv1` is valid and identified, the single point
`c = -1` differs from `lambda_star(mv1) = 1`, yet `estimate_theta` on the
range `[-1, -1]` returns the unequal bounds `-inf < +inf` rather than a
point-identified `theta`. -/
theorem estimate_theta_point_range_not_point :
    check_moments mv1 = .ok (true, true) ∧
      lambdastar mv1 = .ok (fin 1) ∧
      rEqB (fin (-1)) (fin 1) = false ∧
      estimate_theta mv1 (fin (-1), fin (-1)) segs1 =
        .ok ((ninf, List.replicate 9 (fin 0)),
          (pinf, List.replicate 9 (fin 0))) ∧
      (ninf : RVal) ≠ pinf :=
  ⟨check_moments_mv1, lambdastar_mv1, by norm_num [rEqB],
    estimate_theta_mv1_eval, fun h => RVal.noConfusion h⟩

/-- Witness for the amended C8 at `mv1` with the range `[-1, -1]`. -/
theorem estimate_theta_bounds_ordered_witness :
    ((ninf : RVal) = nan ∧ (pinf : RVal) = nan) ∨ rleProp ninf pinf :=
  estimate_theta_bounds_ordered mv1 (fin (-1), fin (-1)) segs1
    ((ninf, List.replicate 9 (fin 0)), (pinf, List.replicate 9 (fin 0)))
    estimate_theta_mv1_eval

end RCR
